import Mathlib

/-!
# RBApy — verification of the constraint-assembly and growth-rate search core

The repository ships only the tutorial notebook (`docs/xml_tutorial.ipynb`);
the engine it exercises (`rba`'s function evaluator, constraint compiler,
feasibility oracle boundary and growth-rate search) is specified in `spec.md`
but its code is not part of the sources.  Following the spec, this file gives
a shallow embedding of that core over the rationals and proves the testable
properties stated in the spec against it, checking them on the minimal model
that the notebook builds (whose recorded outputs — an uncapped growth rate of
2.5 without targets, a finite optimum once the biomass target is added —
anchor the modelling choices).
-/

set_option maxHeartbeats 1000000
set_option maxRecDepth 8000

namespace RBA

/-! ## Medium and variable resolution -/

/-- A medium: mapping from metabolite identifier to concentration. -/
abbrev Medium := List (String × ℚ)

/-- Look up a metabolite concentration in the medium. -/
def mediumLookup (med : Medium) (id : String) : Option ℚ :=
  (med.find? (fun p => p.1 == id)).map (·.2)

/-- Drop the compartment suffix of a species identifier
(`"M_carbon_source_e"` becomes `"M_carbon_source"`):
the tutorial medium is keyed by prefix (`my_model.medium['M_carbon_source'] = 10`)
while boundary species ids carry the compartment tag. -/
def stripCompartment (id : String) : String :=
  match id.data.reverse.dropWhile (fun c => c ≠ '_') with
  | [] => id
  | _ :: rest => String.mk rest.reverse

/-- Modelled from the spec: resolution of a function's medium-concentration
variable (§4.1: "x = growth rate or the referenced medium concentration
(0 if absent from medium)").  A key absent verbatim is retried with its
compartment suffix stripped — required by the tutorial, whose
`transport_factor` names the boundary species `M_carbon_source_e` while the
medium maps `M_carbon_source`, and whose solved growth rate is nonzero. -/
def resolveConcentration (med : Medium) (id : String) : ℚ :=
  match mediumLookup med id with
  | some v => v
  | none =>
    match mediumLookup med (stripCompartment id) with
    | some v => v
    | none => 0

/-! ## Function evaluator -/

/-- Modelled from the spec (§3, §4.1): the tagged variant of growth-rate
dependent functions, each carrying its own named coefficients.  The spec's
`exponential` kind (which needs `e^x`) is outside this rational embedding and
is not exercised by any claim, so it is omitted; `inverse`'s closed form is
not given by the spec and is likewise omitted. -/
inductive FunctionDef where
  | constant (value : ℚ)
  | linear (intercept slope : ℚ) (xMin xMax : Option ℚ)
  | michaelisMenten (kmax km : ℚ)
deriving Repr, DecidableEq

/-- Clamp a value to an optional `[lo, hi]` range (linear functions). -/
def clampOpt (lo hi : Option ℚ) (x : ℚ) : ℚ :=
  let y := match lo with | some l => max l x | none => x
  match hi with | some h => min h y | none => y

/-- Modelled from the spec (§4.1): closed-form evaluation of one function
kind at the value `x` of its variable.  Michaelis-Menten is
`kmax × x / (Km + x)`, returning 0 when `x ≤ 0`; linear is
`intercept + slope × x` clamped to its optional range; constant ignores `x`. -/
def evalFunctionDef (d : FunctionDef) (x : ℚ) : ℚ :=
  match d with
  | .constant c => c
  | .linear intercept slope xMin xMax => clampOpt xMin xMax (intercept + slope * x)
  | .michaelisMenten kmax km => if x ≤ 0 then 0 else kmax * x / (km + x)

/-- A named parameter function: identifier, tagged definition, and the
optional variable reference (absent means the implicit growth rate,
present names a medium concentration entry). -/
structure PFunction where
  id : String
  fdef : FunctionDef
  varRef : Option String
deriving Repr, DecidableEq

/-- A named aggregate: a multiplicative combination of named
function/aggregate references. -/
structure Aggregate where
  id : String
  refs : List String
deriving Repr, DecidableEq

/-- The model's centralized parameter registry. -/
structure Parameters where
  functions : List PFunction
  aggregates : List Aggregate
deriving Repr, DecidableEq

/-- The value of a function's variable: the growth rate when no variable is
named, otherwise the referenced medium concentration. -/
def resolveVar (med : Medium) (mu : ℚ) (v : Option String) : ℚ :=
  match v with
  | none => mu
  | some id => resolveConcentration med id

/-- A resolved parameter expression: the reference graph of a function or
aggregate with every name already looked up (the spec's §9 "polymorphic
expression tree ... explicit tagged-union type with an evaluation visitor"). -/
inductive PExpr where
  | base (d : FunctionDef) (v : Option String)
  | prod (es : List PExpr)
deriving Repr

mutual

/-- Evaluate a resolved parameter expression at a growth rate and medium:
a base function is its closed form at its resolved variable, an aggregate is
the product of its members. -/
def evalP (mu : ℚ) (med : Medium) : PExpr → ℚ
  | .base d v => evalFunctionDef d (resolveVar med mu v)
  | .prod es => evalPList mu med es

/-- Product of evaluating a list of parameter expressions. -/
def evalPList (mu : ℚ) (med : Medium) : List PExpr → ℚ
  | [] => 1
  | e :: es => evalP mu med e * evalPList mu med es

end

/-- Errors of the function evaluator (spec §4.1, §7). -/
inductive EvalError where
  | unknownReference (id : String)
  | cyclicAggregate (id : String)
deriving Repr, DecidableEq

/-- Modelled from the spec (§4.1, §9): resolve a function/aggregate
identifier to its expression tree.  Functions resolve directly; aggregates
resolve their references recursively.  The fuel bounds the reference depth:
exhausting it means the aggregate graph recursed into itself
(`CyclicAggregate`); an identifier defined nowhere is `UnknownReference`. -/
def resolveRef (ps : Parameters) : Nat → String → Except EvalError PExpr
  | 0, id => .error (.cyclicAggregate id)
  | fuel + 1, id =>
    match ps.functions.find? (fun f => f.id == id) with
    | some f => .ok (.base f.fdef f.varRef)
    | none =>
      match ps.aggregates.find? (fun a => a.id == id) with
      | some a => do
        let es ← a.refs.mapM (resolveRef ps fuel)
        .ok (.prod es)
      | none => .error (.unknownReference id)

/-- Fuel sufficient to resolve any acyclic reference graph of `ps`. -/
def defaultFuel (ps : Parameters) : Nat :=
  ps.functions.length + ps.aggregates.length + 1

/-- Modelled from the spec (§4.1): the Function Evaluator contract
`evaluate(id, growth_rate, medium)`, failing with `UnknownReference` or
`CyclicAggregate`. -/
def evaluate (ps : Parameters) (id : String) (mu : ℚ) (med : Medium) :
    Except EvalError ℚ :=
  (resolveRef ps (defaultFuel ps) id).map (evalP mu med)

/-! ## Data model (spec §3) -/

/-- A species: identifier and boundary flag (true means the concentration is
fixed externally by the medium). -/
structure Species where
  id : String
  boundaryCondition : Bool
deriving Repr, DecidableEq

/-- One (species, stoichiometric coefficient) entry of a reaction. -/
structure SpeciesRef where
  species : String
  stoichiometry : ℚ
deriving Repr, DecidableEq

/-- A reaction: identifier, reversibility flag, reactants and products. -/
structure Reaction where
  id : String
  reversible : Bool
  reactants : List SpeciesRef
  products : List SpeciesRef
deriving Repr, DecidableEq

/-- A macromolecule component: identifier and positive weight (volume
contribution per unit). -/
structure Component where
  id : String
  weight : ℚ
deriving Repr, DecidableEq

/-- A macromolecule: identifier, owning compartment, and composition
(component id → count). -/
structure Macromolecule where
  id : String
  compartment : String
  composition : List (String × ℚ)
deriving Repr, DecidableEq

/-- An enzyme: the reaction it catalyzes, forward/backward efficiency — each
a reference to a function or aggregate, never a literal number — and its
machinery composition (macromolecule id → required count). -/
structure Enzyme where
  id : String
  reaction : String
  forwardEfficiency : String
  backwardEfficiency : String
  machineryComposition : List (String × ℚ)
deriving Repr, DecidableEq

/-- A compartment density constraint: optional lower bound, upper bound and
fixed value, each a parameter reference (`value` pins both bounds). -/
structure TargetDensity where
  compartment : String
  lowerBound : Option String
  upperBound : Option String
  value : Option String
deriving Repr, DecidableEq

/-- What a production target constrains: a species concentration to maintain,
or a reaction flux to sustain. -/
inductive TargetKind where
  | concentration (species : String)
  | reactionFlux (reaction : String)
deriving Repr, DecidableEq

/-- A production target: the constrained quantity and the parameter
reference giving its required value. -/
structure Target where
  kind : TargetKind
  value : String
deriving Repr, DecidableEq

/-- Modelled from the spec (§3, §6): the fully-resolved static model handed
to a solve.  Processes/machinery maps (spec §3) are not part of the model
stage the claims exercise (the tutorial's minimal model through its
`targets.xml` section) and are omitted. -/
structure RbaModel where
  compartments : List String
  species : List Species
  reactions : List Reaction
  components : List Component
  macromolecules : List Macromolecule
  enzymes : List Enzyme
  parameters : Parameters
  densities : List TargetDensity
  targets : List Target
  medium : Medium
deriving Repr, DecidableEq

/-! ## Resolved model: every parameter reference replaced by its tree -/

/-- An enzyme with its efficiency references resolved. -/
structure REnzyme where
  id : String
  reaction : String
  fwd : PExpr
  bwd : PExpr
  machinery : List (String × ℚ)
deriving Repr

/-- A density constraint with its bound references resolved. -/
structure RDensity where
  compartment : String
  lower : Option PExpr
  upper : Option PExpr
  val : Option PExpr
deriving Repr

/-- A target with its value reference resolved. -/
structure RTarget where
  kind : TargetKind
  value : PExpr
deriving Repr

/-- The model after the one-time resolution pass (spec §9: validate the
reference graph "once at load time"). -/
structure RModel where
  species : List Species
  reactions : List Reaction
  components : List Component
  macromolecules : List Macromolecule
  enzymes : List REnzyme
  densities : List RDensity
  targets : List RTarget
deriving Repr

/-- Errors raised while translating the model (spec §4.2, §7):
a missing parameter reference (`UndefinedParameter`/`UnknownReference`,
`CyclicAggregate`) or an enzyme pointing at a reaction absent from the
metabolism (`InconsistentModel`). -/
inductive CompileError where
  | undefinedParameter (e : EvalError)
  | inconsistentModel (id : String)
deriving Repr, DecidableEq

/-- Resolve an optional parameter reference. -/
def resolveOpt (ps : Parameters) (fuel : Nat) :
    Option String → Except CompileError (Option PExpr)
  | none => .ok none
  | some id => ((resolveRef ps fuel id).mapError .undefinedParameter).map some

/-- Resolve one enzyme: check its reaction exists, then resolve both
efficiency references. -/
def resolveEnzyme (m : RbaModel) (fuel : Nat) (e : Enzyme) :
    Except CompileError REnzyme :=
  if m.reactions.any (fun r => r.id == e.reaction) then
    match resolveRef m.parameters fuel e.forwardEfficiency with
    | .error err => .error (.undefinedParameter err)
    | .ok fwd =>
      match resolveRef m.parameters fuel e.backwardEfficiency with
      | .error err => .error (.undefinedParameter err)
      | .ok bwd =>
        .ok { id := e.id, reaction := e.reaction, fwd := fwd, bwd := bwd,
              machinery := e.machineryComposition }
  else
    .error (.inconsistentModel e.id)

/-- Resolve one density constraint. -/
def resolveDensity (ps : Parameters) (fuel : Nat) (d : TargetDensity) :
    Except CompileError RDensity :=
  match resolveOpt ps fuel d.lowerBound with
  | .error err => .error err
  | .ok lower =>
    match resolveOpt ps fuel d.upperBound with
    | .error err => .error err
    | .ok upper =>
      match resolveOpt ps fuel d.value with
      | .error err => .error err
      | .ok val =>
        .ok { compartment := d.compartment, lower := lower, upper := upper, val := val }

/-- Resolve one target. -/
def resolveTarget (ps : Parameters) (fuel : Nat) (t : Target) :
    Except CompileError RTarget :=
  match resolveRef ps fuel t.value with
  | .error err => .error (.undefinedParameter err)
  | .ok v => .ok { kind := t.kind, value := v }

/-- Modelled from the spec (§4.2, §7, §9): the one-time structural pass.
Every parameter reference of the model is resolved through the registry; a
missing reference or cyclic aggregate is a hard configuration error, and an
enzyme whose reaction is absent from the metabolism is `InconsistentModel` —
all "detected once during compilation", never deferred to the solver. -/
def resolveModel (m : RbaModel) : Except CompileError RModel :=
  match m.enzymes.mapM (resolveEnzyme m (defaultFuel m.parameters)) with
  | .error e => .error e
  | .ok enzymes =>
    match m.densities.mapM (resolveDensity m.parameters (defaultFuel m.parameters)) with
    | .error e => .error e
    | .ok densities =>
      match m.targets.mapM (resolveTarget m.parameters (defaultFuel m.parameters)) with
      | .error e => .error e
      | .ok targets =>
        .ok { species := m.species, reactions := m.reactions,
              components := m.components, macromolecules := m.macromolecules,
              enzymes := enzymes, densities := densities, targets := targets }

/-! ## Constraint system (spec §4.2) -/

/-- The named variables of the compiled linear program: one flux per
reaction, one concentration per enzyme, one concentration per
macromolecule. -/
inductive Var where
  | flux (reaction : String)
  | enzyme (id : String)
  | molecule (id : String)
deriving Repr, DecidableEq

/-- One typed row: a sparse linear combination of named variables together
with an optional lower and upper bound (equality rows carry both). -/
structure Row where
  coeffs : List (Var × ℚ)
  lower : Option ℚ
  upper : Option ℚ
deriving Repr

/-- The value of a row's linear combination under an assignment. -/
def Row.eval (a : Var → ℚ) (row : Row) : ℚ :=
  (row.coeffs.map (fun p => p.2 * a p.1)).sum

/-- An assignment satisfies a row when its value is within the bounds. -/
def Row.sat (a : Var → ℚ) (row : Row) : Prop :=
  (match row.lower with | none => True | some l => l ≤ row.eval a) ∧
  (match row.upper with | none => True | some u => row.eval a ≤ u)

/-- A constraint system is feasible when some assignment satisfies every
row — the verdict the Feasibility Oracle reports. -/
def Feasible (sys : List Row) : Prop :=
  ∃ a : Var → ℚ, ∀ row ∈ sys, row.sat a

/-- Net stoichiometric coefficient of a species in a reaction
(products positive, reactants negative). -/
def stoichOf (r : Reaction) (sid : String) : ℚ :=
  (r.products.map (fun p => if p.species = sid then p.stoichiometry else 0)).sum
  - (r.reactants.map (fun p => if p.species = sid then p.stoichiometry else 0)).sum

/-- The total concentration level the targets require for a species. -/
def speciesConcTarget (rm : RModel) (mu : ℚ) (med : Medium) (sid : String) : ℚ :=
  (rm.targets.map (fun t =>
    match t.kind with
    | .concentration s => if s = sid then evalP mu med t.value else 0
    | .reactionFlux _ => 0)).sum

/-- Modelled from the spec (§4.2): mass-balance row of one non-boundary
species.  The net flux into the species must equal the dilution of the
concentration the targets maintain for it, `mu × target level` (zero for an
untargeted species) — the reading of "species' net production ... must equal
the evaluated target value" under which the tutorial's recorded growth rates
are reproduced. -/
def balanceRow (rm : RModel) (mu : ℚ) (med : Medium) (s : Species) : Row :=
  { coeffs := rm.reactions.map (fun r => (Var.flux r.id, stoichOf r s.id)),
    lower := some (mu * speciesConcTarget rm mu med s.id),
    upper := some (mu * speciesConcTarget rm mu med s.id) }

/-- Capacity row of an enzyme, forward direction:
`flux ≤ forward_efficiency × enzyme_concentration`. -/
def fwdCapRow (mu : ℚ) (med : Medium) (e : REnzyme) : Row :=
  { coeffs := [(Var.flux e.reaction, 1), (Var.enzyme e.id, -(evalP mu med e.fwd))],
    lower := none, upper := some 0 }

/-- Capacity row of an enzyme, backward direction:
`-flux ≤ backward_efficiency × enzyme_concentration`. -/
def bwdCapRow (mu : ℚ) (med : Medium) (e : REnzyme) : Row :=
  { coeffs := [(Var.flux e.reaction, -1), (Var.enzyme e.id, -(evalP mu med e.bwd))],
    lower := none, upper := some 0 }

/-- Machinery linkage row (spec §4.2): one constraint per required
macromolecule, `enzyme_concentration × required_count ≤ macromolecule
concentration`. -/
def machineryRow (e : REnzyme) (p : String × ℚ) : Row :=
  { coeffs := [(Var.enzyme e.id, p.2), (Var.molecule p.1, -1)],
    lower := none, upper := some 0 }

/-- Weight of one component (0 for an id not in the registry). -/
def componentWeight (rm : RModel) (cid : String) : ℚ :=
  match rm.components.find? (fun c => c.id == cid) with
  | some c => c.weight
  | none => 0

/-- Derived volume of a macromolecule: `Σ (count × component weight)`. -/
def mmVolume (rm : RModel) (mm : Macromolecule) : ℚ :=
  (mm.composition.map (fun p => p.2 * componentWeight rm p.1)).sum

/-- Density row of one compartment constraint (spec §4.2): total weighted
macromolecule concentration within the evaluated bounds (`value` pins both
bounds to the same expression). -/
def densityRow (rm : RModel) (mu : ℚ) (med : Medium) (d : RDensity) : Row :=
  { coeffs := (rm.macromolecules.filter (fun mm => mm.compartment == d.compartment)).map
      (fun mm => (Var.molecule mm.id, mmVolume rm mm)),
    lower :=
      match d.val with
      | some v => some (evalP mu med v)
      | none => d.lower.map (evalP mu med),
    upper :=
      match d.val with
      | some v => some (evalP mu med v)
      | none => d.upper.map (evalP mu med) }

/-- Target rows for reaction-flux requirements: the named reaction's flux
must equal the evaluated target value (species concentration targets enter
their species' balance row instead). -/
def fluxTargetRows (rm : RModel) (mu : ℚ) (med : Medium) : List Row :=
  rm.targets.filterMap (fun t =>
    match t.kind with
    | .reactionFlux r =>
      some { coeffs := [(Var.flux r, 1)],
             lower := some (evalP mu med t.value),
             upper := some (evalP mu med t.value) }
    | .concentration _ => none)

/-- Sign rows: an irreversible reaction contributes only a non-negative flux
variable, and enzyme/macromolecule concentrations are non-negative. -/
def nonnegRows (rm : RModel) : List Row :=
  (rm.reactions.filter (fun r => !r.reversible)).map
    (fun r => { coeffs := [(Var.flux r.id, 1)], lower := some 0, upper := none })
  ++ rm.enzymes.map
    (fun e => { coeffs := [(Var.enzyme e.id, 1)], lower := some 0, upper := none })
  ++ rm.macromolecules.map
    (fun mm => { coeffs := [(Var.molecule mm.id, 1)], lower := some 0, upper := none })

/-- Modelled from the spec (§4.2): the Constraint Compiler.  At a growth rate
and medium it produces the full constraint system: mass-balance rows for
non-boundary species, enzyme capacity rows, machinery linkage rows,
compartment density rows, reaction-flux target rows, and sign rows. -/
def compileR (rm : RModel) (mu : ℚ) (med : Medium) : List Row :=
  (rm.species.filter (fun s => !s.boundaryCondition)).map (balanceRow rm mu med)
  ++ rm.enzymes.flatMap (fun e => [fwdCapRow mu med e, bwdCapRow mu med e])
  ++ rm.enzymes.flatMap (fun e => e.machinery.map (machineryRow e))
  ++ rm.densities.map (densityRow rm mu med)
  ++ fluxTargetRows rm mu med
  ++ nonnegRows rm

/-! ## Feasibility oracle boundary and growth-rate search (spec §4.3, §4.4) -/

/-- Modelled from the spec (§4.3): the verdict of the external
linear-program solver on a compiled system. -/
inductive OracleVerdict where
  | infeasible
  | optimal (value : ℚ)
  | unbounded
  | numericalError
deriving Repr, DecidableEq

/-- What the search needs from a verdict: feasibility.  `OPTIMAL` and
`UNBOUNDED` both witness feasibility; `NUMERICAL_ERROR` stays distinct and is
never downgraded to infeasible. -/
inductive FeasResult where
  | feasible
  | infeasible
  | numericalError
deriving Repr, DecidableEq

/-- Collapse an oracle verdict to its feasibility content. -/
def OracleVerdict.toFeas : OracleVerdict → FeasResult
  | .infeasible => .infeasible
  | .optimal _ => .feasible
  | .unbounded => .feasible
  | .numericalError => .numericalError

/-- Modelled from the spec (§4.4, §7): the outcome of one growth-rate
search — the optimum found, the fatal infeasible-at-zero sentinel, or the
distinct solver-error outcome. -/
inductive SearchOutcome where
  | infeasibleAtZero
  | solverError
  | optimum (mu : ℚ)
deriving Repr, DecidableEq

/-- Modelled from the spec (§4.4): the bisection loop over a bracket whose
lower end is known feasible.  At each step the midpoint is queried: feasible
moves the lower bound up, infeasible moves the upper bound down, and a
numerical error aborts with `SOLVER_ERROR`.  After the iteration budget the
last known feasible rate is returned.  The second component records every
query made (the trace), so that the error-handling contract can be stated. -/
def bisect (o : ℚ → OracleVerdict) :
    Nat → ℚ → ℚ → SearchOutcome × List (ℚ × OracleVerdict)
  | 0, lo, _ => (.optimum lo, [])
  | n + 1, lo, hi =>
    let mid := (lo + hi) / 2
    match (o mid).toFeas with
    | .numericalError => (.solverError, [(mid, o mid)])
    | .feasible =>
      let r := bisect o n mid hi
      (r.1, (mid, o mid) :: r.2)
    | .infeasible =>
      let r := bisect o n lo mid
      (r.1, (mid, o mid) :: r.2)

/-- Modelled from the spec (§4.4): the growth-rate search over `[0, muMax]`.
Infeasible at zero is the fatal `INFEASIBLE_AT_ZERO`; feasible at the cap
reports the cap as the answer (the "uncapped growth" behaviour); otherwise
the bracket is bisected.  A numerical error at any query aborts with
`SOLVER_ERROR`.  Returns the outcome together with the query trace. -/
def search (o : ℚ → OracleVerdict) (muMax : ℚ) (iters : Nat) :
    SearchOutcome × List (ℚ × OracleVerdict) :=
  match (o 0).toFeas with
  | .numericalError => (.solverError, [(0, o 0)])
  | .infeasible => (.infeasibleAtZero, [(0, o 0)])
  | .feasible =>
    match (o muMax).toFeas with
    | .numericalError => (.solverError, [(0, o 0), (muMax, o muMax)])
    | .feasible => (.optimum muMax, [(0, o 0), (muMax, o muMax)])
    | .infeasible =>
      let r := bisect o iters 0 muMax
      (r.1, (0, o 0) :: (muMax, o muMax) :: r.2)

/-- The configured growth-rate cap (the notebook: "growth rate is capped
at 2.5"). -/
def muCap : ℚ := 5 / 2

/-- The configured iteration budget of the bisection. -/
def defaultIters : Nat := 50

/-- The result object of a solve: the search outcome plus the non-fatal
warnings (identifiers of reactions with no catalyzing enzyme). -/
structure RbaResult where
  outcome : SearchOutcome
  warnings : List String
deriving Repr, DecidableEq

/-- Reactions with no catalyzing enzyme — reported, not fatal (the
historical "did not find enzymes for following reactions" notice). -/
def missingEnzymeReactions (m : RbaModel) : List String :=
  ((m.reactions.filter (fun r => !(m.enzymes.any (fun e => e.reaction == r.id)))).map (·.id))

/-- Modelled from the spec (§1, §4.4, §6): `solve()`.  The model is resolved
once; the growth-rate search then repeatedly compiles the constraint system
at candidate rates and queries the supplied external oracle.  Structural
errors abort the whole solve; enzyme-less reactions only produce warnings. -/
def solve (m : RbaModel) (oracle : List Row → OracleVerdict) :
    Except CompileError RbaResult :=
  (resolveModel m).map (fun rm =>
    { outcome := (search (fun mu => oracle (compileR rm mu m.medium)) muCap defaultIters).1,
      warnings := missingEnzymeReactions m })

/-- The optimal growth rate of a solve result, when the search found one. -/
def muOpt? (r : Except CompileError RbaResult) : Option ℚ :=
  match r with
  | .ok res =>
    match res.outcome with
    | .optimum v => some v
    | _ => none
  | .error _ => none

/-- A correct oracle for a resolved model: at every growth rate its verdict
on the compiled system reports exactly the system's feasibility, and it
never fails numerically. -/
def OracleCorrectFor (oracle : List Row → OracleVerdict) (rm : RModel)
    (med : Medium) : Prop :=
  ∀ mu : ℚ,
    ((oracle (compileR rm mu med)).toFeas = .feasible ↔ Feasible (compileR rm mu med)) ∧
    (oracle (compileR rm mu med)).toFeas ≠ .numericalError

/-! ## The tutorial's minimal model

The model the notebook builds through its `targets.xml` section: four
species (the extracellular carbon source is a boundary species), three
irreversible reactions, two proteins over one residue component, three
enzymes, constant catalytic parameters of value 10 (the transport efficiency
is an aggregate of the base constant with a Michaelis-Menten factor over the
medium concentration), a cytosol density upper bound of 10 residue units,
and a biomass concentration target of 1. -/

/-- The tutorial's parameter registry (`parameters.xml`). -/
def tutParameters : Parameters :=
  { functions :=
      [ { id := "kcat_transport_base", fdef := .constant 10, varRef := none },
        { id := "kcat_precursor", fdef := .constant 10, varRef := none },
        { id := "kcat_biomass", fdef := .constant 10, varRef := none },
        { id := "zero", fdef := .constant 0, varRef := none },
        { id := "transport_factor", fdef := .michaelisMenten 1 (1/2),
          varRef := some "M_carbon_source_e" },
        { id := "maximal_cytosol_density", fdef := .constant 10, varRef := none },
        { id := "target_biomass_production", fdef := .constant 1, varRef := none } ],
    aggregates :=
      [ { id := "kcat_transport",
          refs := ["kcat_transport_base", "transport_factor"] } ] }

/-- The tutorial's minimal model. -/
def tutModel : RbaModel :=
  { compartments := ["extracellular", "cytosol"],
    species :=
      [ { id := "M_carbon_source_e", boundaryCondition := true },
        { id := "M_carbon_source_c", boundaryCondition := false },
        { id := "M_protein_component_precursor_c", boundaryCondition := false },
        { id := "M_biomass_c", boundaryCondition := false } ],
    reactions :=
      [ { id := "R_transport", reversible := false,
          reactants := [{ species := "M_carbon_source_e", stoichiometry := 1 }],
          products := [{ species := "M_carbon_source_c", stoichiometry := 1 }] },
        { id := "R_protein_component_precursor", reversible := false,
          reactants := [{ species := "M_carbon_source_c", stoichiometry := 1 }],
          products := [{ species := "M_protein_component_precursor_c", stoichiometry := 1 }] },
        { id := "R_biomass", reversible := false,
          reactants := [{ species := "M_carbon_source_c", stoichiometry := 1 }],
          products := [{ species := "M_biomass_c", stoichiometry := 1 }] } ],
    components := [ { id := "protein_component_residue", weight := 1 } ],
    macromolecules :=
      [ { id := "small_protein", compartment := "cytosol",
          composition := [("protein_component_residue", 10)] },
        { id := "large_protein", compartment := "cytosol",
          composition := [("protein_component_residue", 20)] } ],
    enzymes :=
      [ { id := "R_transport_enzyme", reaction := "R_transport",
          forwardEfficiency := "kcat_transport", backwardEfficiency := "zero",
          machineryComposition := [("large_protein", 2)] },
        { id := "R_protein_precursor_enzyme", reaction := "R_protein_component_precursor",
          forwardEfficiency := "kcat_precursor", backwardEfficiency := "zero",
          machineryComposition := [("small_protein", 2)] },
        { id := "R_biomass_enzyme", reaction := "R_biomass",
          forwardEfficiency := "kcat_biomass", backwardEfficiency := "zero",
          machineryComposition := [("small_protein", 1), ("large_protein", 1)] } ],
    parameters := tutParameters,
    densities :=
      [ { compartment := "cytosol", lowerBound := none,
          upperBound := some "maximal_cytosol_density", value := none } ],
    targets :=
      [ { kind := .concentration "M_biomass_c", value := "target_biomass_production" } ],
    medium := [("M_carbon_source", 10)] }

/-- The transport efficiency's resolved expression: the aggregate
multiplying the base constant by the Michaelis-Menten transport factor. -/
def tutKcatTransport : PExpr :=
  .prod [.base (.constant 10) none,
         .base (.michaelisMenten 1 (1/2)) (some "M_carbon_source_e")]

/-- The tutorial's resolved transport enzyme. -/
def tutE1 : REnzyme :=
  { id := "R_transport_enzyme", reaction := "R_transport",
    fwd := tutKcatTransport, bwd := .base (.constant 0) none,
    machinery := [("large_protein", 2)] }

/-- The tutorial's resolved precursor enzyme. -/
def tutE2 : REnzyme :=
  { id := "R_protein_precursor_enzyme", reaction := "R_protein_component_precursor",
    fwd := .base (.constant 10) none, bwd := .base (.constant 0) none,
    machinery := [("small_protein", 2)] }

/-- The tutorial's resolved biomass enzyme. -/
def tutE3 : REnzyme :=
  { id := "R_biomass_enzyme", reaction := "R_biomass",
    fwd := .base (.constant 10) none, bwd := .base (.constant 0) none,
    machinery := [("small_protein", 1), ("large_protein", 1)] }

/-- The tutorial model, resolved. -/
def tutRM : RModel :=
  { species := tutModel.species,
    reactions := tutModel.reactions,
    components := tutModel.components,
    macromolecules := tutModel.macromolecules,
    enzymes := [tutE1, tutE2, tutE3],
    densities :=
      [ { compartment := "cytosol", lower := none,
          upper := some (.base (.constant 10) none), val := none } ],
    targets :=
      [ { kind := .concentration "M_biomass_c", value := .base (.constant 1) none } ] }

example : resolveModel tutModel = .ok tutRM := by rfl

/-- The feasible assignment exhibiting growth at rate `mu` in the tutorial
model: transport and biomass run at flux `mu`, enzymes at the concentrations
their capacity rows demand, proteins at the concentrations the machinery
rows demand. -/
def tutAssign (mu : ℚ) : Var → ℚ
  | .flux "R_transport" => mu
  | .flux "R_biomass" => mu
  | .enzyme "R_transport_enzyme" => 21 / 200 * mu
  | .enzyme "R_biomass_enzyme" => mu / 10
  | .molecule "small_protein" => mu / 10
  | .molecule "large_protein" => 21 / 100 * mu
  | _ => 0



/-! ## Basic row lemmas -/

/-- The zero assignment evaluates every row to zero. -/
theorem Row.eval_zero (row : Row) : Row.eval (fun _ => 0) row = 0 := by
  unfold Row.eval
  induction row.coeffs with
  | nil => simp
  | cons p ps ih => simp [ih]

/-- Balance rows are part of the compiled system. -/
theorem balanceRow_mem (rm : RModel) (mu : ℚ) (med : Medium) (s : Species)
    (hs : s ∈ rm.species) (hb : s.boundaryCondition = false) :
    balanceRow rm mu med s ∈ compileR rm mu med := by
  unfold compileR
  exact List.mem_append_left _ (List.mem_append_left _ (List.mem_append_left _
    (List.mem_append_left _ (List.mem_append_left _
      (List.mem_map_of_mem _ (List.mem_filter.mpr ⟨hs, by simp [hb]⟩))))))

/-- Forward capacity rows are part of the compiled system. -/
theorem fwdCapRow_mem (rm : RModel) (mu : ℚ) (med : Medium) (e : REnzyme)
    (he : e ∈ rm.enzymes) :
    fwdCapRow mu med e ∈ compileR rm mu med := by
  unfold compileR
  refine List.mem_append_left _ (List.mem_append_left _ (List.mem_append_left _
    (List.mem_append_left _ (List.mem_append_right _ ?_))))
  exact List.mem_flatMap.mpr ⟨e, he, by simp⟩

/-- Backward capacity rows are part of the compiled system. -/
theorem bwdCapRow_mem (rm : RModel) (mu : ℚ) (med : Medium) (e : REnzyme)
    (he : e ∈ rm.enzymes) :
    bwdCapRow mu med e ∈ compileR rm mu med := by
  unfold compileR
  refine List.mem_append_left _ (List.mem_append_left _ (List.mem_append_left _
    (List.mem_append_left _ (List.mem_append_right _ ?_))))
  exact List.mem_flatMap.mpr ⟨e, he, by simp⟩

/-- Machinery linkage rows are part of the compiled system. -/
theorem machineryRow_mem (rm : RModel) (mu : ℚ) (med : Medium) (e : REnzyme)
    (p : String × ℚ) (he : e ∈ rm.enzymes) (hp : p ∈ e.machinery) :
    machineryRow e p ∈ compileR rm mu med := by
  unfold compileR
  refine List.mem_append_left _ (List.mem_append_left _ (List.mem_append_left _
    (List.mem_append_right _ ?_)))
  exact List.mem_flatMap.mpr ⟨e, he, List.mem_map_of_mem _ hp⟩

/-- Density rows are part of the compiled system. -/
theorem densityRow_mem (rm : RModel) (mu : ℚ) (med : Medium) (d : RDensity)
    (hd : d ∈ rm.densities) :
    densityRow rm mu med d ∈ compileR rm mu med := by
  unfold compileR
  exact List.mem_append_left _ (List.mem_append_left _ (List.mem_append_right _
    (List.mem_map_of_mem _ hd)))

/-- Flux sign rows are part of the compiled system. -/
theorem fluxNonnegRow_mem (rm : RModel) (mu : ℚ) (med : Medium) (r : Reaction)
    (hr : r ∈ rm.reactions) (hirr : r.reversible = false) :
    ({ coeffs := [(Var.flux r.id, 1)], lower := some 0, upper := none } : Row) ∈
      compileR rm mu med := by
  unfold compileR nonnegRows
  refine List.mem_append_right _ ?_
  exact List.mem_append_left _ (List.mem_append_left _
    (List.mem_map_of_mem _ (List.mem_filter.mpr ⟨hr, by simp [hirr]⟩)))

/-- Enzyme sign rows are part of the compiled system. -/
theorem enzymeNonnegRow_mem (rm : RModel) (mu : ℚ) (med : Medium) (e : REnzyme)
    (he : e ∈ rm.enzymes) :
    ({ coeffs := [(Var.enzyme e.id, 1)], lower := some 0, upper := none } : Row) ∈
      compileR rm mu med := by
  unfold compileR nonnegRows
  refine List.mem_append_right _ ?_
  exact List.mem_append_left _ (List.mem_append_right _
    (List.mem_map_of_mem _ he))

/-- Macromolecule sign rows are part of the compiled system. -/
theorem moleculeNonnegRow_mem (rm : RModel) (mu : ℚ) (med : Medium)
    (mm : Macromolecule) (hm : mm ∈ rm.macromolecules) :
    ({ coeffs := [(Var.molecule mm.id, 1)], lower := some 0, upper := none } : Row) ∈
      compileR rm mu med := by
  unfold compileR nonnegRows
  refine List.mem_append_right _ ?_
  exact List.mem_append_right _ (List.mem_map_of_mem _ hm)

/-! ## Search lemmas -/

/-- When no query in the bracket errors, the bisection ends on an optimum
inside the bracket which is the initial lower bound or a rate the oracle
found feasible. -/
theorem bisect_ok (o : ℚ → OracleVerdict) (n : Nat) :
    ∀ lo hi : ℚ, lo ≤ hi →
    (∀ mu : ℚ, lo ≤ mu → mu ≤ hi → (o mu).toFeas ≠ .numericalError) →
    ∃ r : ℚ, (bisect o n lo hi).1 = .optimum r ∧ lo ≤ r ∧ r ≤ hi ∧
      (r = lo ∨ (o r).toFeas = .feasible) := by
  induction n with
  | zero =>
    intro lo hi hle _
    exact ⟨lo, rfl, le_refl lo, hle, Or.inl rfl⟩
  | succ n ih =>
    intro lo hi hle hne
    have hlomid : lo ≤ (lo + hi) / 2 := by linarith
    have hmidhi : (lo + hi) / 2 ≤ hi := by linarith
    rcases h : (o ((lo + hi) / 2)).toFeas with _ | _ | _
    · rcases ih ((lo + hi) / 2) hi hmidhi
        (fun mu h1 h2 => hne mu (le_trans hlomid h1) h2) with ⟨r, hr, h1, h2, h3⟩
      refine ⟨r, ?_, le_trans hlomid h1, h2, ?_⟩
      · simp [bisect, h, hr]
      · rcases h3 with h3 | h3
        · exact Or.inr (h3 ▸ h)
        · exact Or.inr h3
    · rcases ih lo ((lo + hi) / 2) hlomid
        (fun mu h1 h2 => hne mu h1 (le_trans h2 hmidhi)) with ⟨r, hr, h1, h2, h3⟩
      exact ⟨r, by simp [bisect, h, hr], h1, le_trans h2 hmidhi, h3⟩
    · exact absurd h (hne _ hlomid hmidhi)

/-- The bisection reports `SOLVER_ERROR` exactly when some query it made
returned a numerical error. -/
theorem bisect_error_iff (o : ℚ → OracleVerdict) (n : Nat) :
    ∀ lo hi : ℚ,
    ((bisect o n lo hi).1 = .solverError ↔
      ∃ p ∈ (bisect o n lo hi).2, (p.2).toFeas = .numericalError) := by
  induction n with
  | zero => intro lo hi; simp [bisect]
  | succ n ih =>
    intro lo hi
    rcases h : (o ((lo + hi) / 2)).toFeas with _ | _ | _
    · simpa [bisect, h] using ih ((lo + hi) / 2) hi
    · simpa [bisect, h] using ih lo ((lo + hi) / 2)
    · simp [bisect, h]

/-- Pointwise enlarging the feasible answers of the oracle never lowers the
optimum the bisection reports. -/
theorem bisect_mono (o1 o2 : ℚ → OracleVerdict) (n : Nat) :
    ∀ lo hi : ℚ, lo ≤ hi →
    (∀ mu : ℚ, lo ≤ mu → mu ≤ hi →
      ((o1 mu).toFeas = .feasible → (o2 mu).toFeas = .feasible)) →
    (∀ mu : ℚ, lo ≤ mu → mu ≤ hi → (o1 mu).toFeas ≠ .numericalError) →
    (∀ mu : ℚ, lo ≤ mu → mu ≤ hi → (o2 mu).toFeas ≠ .numericalError) →
    ∀ r1 r2 : ℚ, (bisect o1 n lo hi).1 = .optimum r1 →
      (bisect o2 n lo hi).1 = .optimum r2 → r1 ≤ r2 := by
  induction n with
  | zero =>
    intro lo hi _ _ _ _ r1 r2 h1 h2
    simp only [bisect, SearchOutcome.optimum.injEq] at h1 h2
    rw [← h1, ← h2]
  | succ n ih =>
    intro lo hi hle h12 hne1 hne2 r1 r2 h1 h2
    have hlomid : lo ≤ (lo + hi) / 2 := by linarith
    have hmidhi : (lo + hi) / 2 ≤ hi := by linarith
    rcases hf1 : (o1 ((lo + hi) / 2)).toFeas with _ | _ | _
    · have hf2 := h12 _ hlomid hmidhi hf1
      simp only [bisect, hf1, hf2] at h1 h2
      exact ih ((lo + hi) / 2) hi hmidhi
        (fun mu ha hb => h12 mu (le_trans hlomid ha) hb)
        (fun mu ha hb => hne1 mu (le_trans hlomid ha) hb)
        (fun mu ha hb => hne2 mu (le_trans hlomid ha) hb) r1 r2 h1 h2
    · rcases hf2 : (o2 ((lo + hi) / 2)).toFeas with _ | _ | _
      · simp only [bisect, hf1, hf2] at h1 h2
        rcases bisect_ok o1 n lo ((lo + hi) / 2) hlomid
          (fun mu ha hb => hne1 mu ha (le_trans hb hmidhi)) with ⟨s1, hs1, _, hs1b, _⟩
        rcases bisect_ok o2 n ((lo + hi) / 2) hi hmidhi
          (fun mu ha hb => hne2 mu (le_trans hlomid ha) hb) with ⟨s2, hs2, hs2a, _, _⟩
        rw [h1] at hs1
        rw [h2] at hs2
        injection hs1 with e1
        injection hs2 with e2
        subst e1
        subst e2
        exact le_trans hs1b hs2a
      · simp only [bisect, hf1, hf2] at h1 h2
        exact ih lo ((lo + hi) / 2) hlomid
          (fun mu ha hb => h12 mu ha (le_trans hb hmidhi))
          (fun mu ha hb => hne1 mu ha (le_trans hb hmidhi))
          (fun mu ha hb => hne2 mu ha (le_trans hb hmidhi)) r1 r2 h1 h2
      · exact absurd hf2 (hne2 _ hlomid hmidhi)
    · exact absurd hf1 (hne1 _ hlomid hmidhi)

/-- `tutAssign` at the transport flux. -/
theorem tutAssign_ft (mu : ℚ) : tutAssign mu (Var.flux "R_transport") = mu := rfl


/-- `tutAssign` at the precursor flux. -/
theorem tutAssign_fp (mu : ℚ) :
    tutAssign mu (Var.flux "R_protein_component_precursor") = 0 := rfl

/-- `tutAssign` at the biomass flux. -/
theorem tutAssign_fb (mu : ℚ) : tutAssign mu (Var.flux "R_biomass") = mu := rfl

/-- `tutAssign` at the transport enzyme. -/
theorem tutAssign_et (mu : ℚ) :
    tutAssign mu (Var.enzyme "R_transport_enzyme") = 21 / 200 * mu := rfl

/-- `tutAssign` at the precursor enzyme. -/
theorem tutAssign_ep (mu : ℚ) :
    tutAssign mu (Var.enzyme "R_protein_precursor_enzyme") = 0 := rfl

/-- `tutAssign` at the biomass enzyme. -/
theorem tutAssign_eb (mu : ℚ) :
    tutAssign mu (Var.enzyme "R_biomass_enzyme") = mu / 10 := rfl

/-- `tutAssign` at the small protein. -/
theorem tutAssign_ms (mu : ℚ) :
    tutAssign mu (Var.molecule "small_protein") = mu / 10 := rfl

/-- `tutAssign` at the large protein. -/
theorem tutAssign_ml (mu : ℚ) :
    tutAssign mu (Var.molecule "large_protein") = 21 / 100 * mu := rfl

/-- A constant function evaluates to its `CONSTANT` coefficient regardless
of growth rate, medium, and variable. -/
theorem evalP_const (mu : ℚ) (med : Medium) (c : ℚ) (v : Option String) :
    evalP mu med (.base (.constant c) v) = c := rfl

/-- The tutorial medium resolves the boundary carbon source (by stripping
its compartment suffix) to the configured concentration 10. -/
theorem tutResolve :
    resolveConcentration [("M_carbon_source", (10 : ℚ))] "M_carbon_source_e" = 10 := rfl

/-- The transport efficiency evaluates, at every growth rate, to the base
constant 10 scaled by the Michaelis-Menten factor `10 / (1/2 + 10)`. -/
theorem tutKcatT (mu : ℚ) :
    evalP mu [("M_carbon_source", (10 : ℚ))] tutKcatTransport = 200 / 21 := by
  norm_num [evalP, evalPList, evalFunctionDef, resolveVar, tutKcatTransport, tutResolve]

/-- In the tutorial model the assignment `tutAssign mu` satisfies every
compiled row whenever `0 ≤ mu ≤ 25/13`. -/
theorem tutFeasible (mu : ℚ) (h0 : 0 ≤ mu) (h1 : mu ≤ 25 / 13) :
    Feasible (compileR tutRM mu tutModel.medium) := by
  refine ⟨tutAssign mu, ?_⟩
  simp +decide [compileR, tutRM, tutModel, tutE1, tutE2, tutE3, balanceRow, fwdCapRow,
    bwdCapRow, machineryRow, densityRow, fluxTargetRows, nonnegRows, stoichOf,
    speciesConcTarget, mmVolume, componentWeight, tutKcatT, evalP_const, Row.sat, Row.eval,
    tutAssign_ft, tutAssign_fp, tutAssign_fb, tutAssign_et, tutAssign_ep,
    tutAssign_eb, tutAssign_ms, tutAssign_ml, List.forall_mem_cons]
  norm_num
  and_intros <;> linarith

/-- Conversely, any assignment satisfying the tutorial system at growth rate
`mu` forces `0 ≤ mu ≤ 25/13`: the biomass dilution fixes the biomass flux to
`mu`, capacities force the enzyme levels, the machinery rows force the
protein levels, and the density bound caps the total. -/
theorem tutInfeasible (mu : ℚ)
    (h : Feasible (compileR tutRM mu tutModel.medium)) : 0 ≤ mu ∧ mu ≤ 25 / 13 := by
  obtain ⟨a, ha⟩ := h
  have hbal_b := ha _ (balanceRow_mem tutRM mu tutModel.medium
    ⟨"M_biomass_c", false⟩ (by simp [tutRM, tutModel]) rfl)
  have hbal_c := ha _ (balanceRow_mem tutRM mu tutModel.medium
    ⟨"M_carbon_source_c", false⟩ (by simp [tutRM, tutModel]) rfl)
  have hcap_t := ha _ (fwdCapRow_mem tutRM mu tutModel.medium tutE1 (by simp [tutRM]))
  have hcap_b := ha _ (fwdCapRow_mem tutRM mu tutModel.medium tutE3 (by simp [tutRM]))
  have hmach_tl := ha _ (machineryRow_mem tutRM mu tutModel.medium tutE1
    ("large_protein", 2) (by simp [tutRM]) (by simp [tutE1]))
  have hmach_bs := ha _ (machineryRow_mem tutRM mu tutModel.medium tutE3
    ("small_protein", 1) (by simp [tutRM]) (by simp [tutE3]))
  have hdens := ha _ (densityRow_mem tutRM mu tutModel.medium
    { compartment := "cytosol", lower := none,
      upper := some (.base (.constant 10) none), val := none } (by simp [tutRM]))
  have hnn_p := ha _ (fluxNonnegRow_mem tutRM mu tutModel.medium
    { id := "R_protein_component_precursor", reversible := false,
      reactants := [{ species := "M_carbon_source_c", stoichiometry := 1 }],
      products := [{ species := "M_protein_component_precursor_c", stoichiometry := 1 }] }
    (by simp [tutRM, tutModel]) rfl)
  have hnn_b := ha _ (fluxNonnegRow_mem tutRM mu tutModel.medium
    { id := "R_biomass", reversible := false,
      reactants := [{ species := "M_carbon_source_c", stoichiometry := 1 }],
      products := [{ species := "M_biomass_c", stoichiometry := 1 }] }
    (by simp [tutRM, tutModel]) rfl)
  simp +decide [Row.sat, Row.eval, balanceRow, fwdCapRow, machineryRow, densityRow,
    stoichOf, speciesConcTarget, mmVolume, componentWeight, tutRM, tutModel,
    tutE1, tutE3, tutKcatT, evalP_const]
    at hbal_b hbal_c hcap_t hcap_b hmach_tl hmach_bs hdens hnn_p hnn_b
  constructor <;> linarith [hbal_b.1, hbal_b.2, hbal_c.1, hbal_c.2]

/-- A perfectly informed external oracle: reports feasibility exactly
(its existence realizes the spec §4.3 contract; a real solver is treated as
an approximation of it). -/
noncomputable def exactOracle (sys : List Row) : OracleVerdict :=
  open Classical in if Feasible sys then .optimal 0 else .infeasible

/-- The exact oracle is correct for every model and never errors. -/
theorem exactOracle_correct (rm : RModel) (med : Medium) :
    OracleCorrectFor exactOracle rm med := by
  intro mu
  by_cases h : Feasible (compileR rm mu med) <;>
    simp [exactOracle, h, OracleVerdict.toFeas]

/-- Unrolling one bisection step whose midpoint is feasible. -/
theorem bisect_succ_feasible (o : ℚ → OracleVerdict) (n : Nat) (lo hi : ℚ)
    (h : (o ((lo + hi) / 2)).toFeas = .feasible) :
    bisect o (n + 1) lo hi =
      ((bisect o n ((lo + hi) / 2) hi).1,
        ((lo + hi) / 2, o ((lo + hi) / 2)) :: (bisect o n ((lo + hi) / 2) hi).2) := by
  simp [bisect, h]

/-- When zero growth is feasible but the cap is not, the search bisects. -/
theorem search_bisects (o : ℚ → OracleVerdict) (muMax : ℚ) (iters : Nat)
    (h0 : (o 0).toFeas = .feasible) (hmax : (o muMax).toFeas = .infeasible) :
    (search o muMax iters).1 = (bisect o iters 0 muMax).1 := by
  simp [search, h0, hmax]

/-- Any oracle correct for the tutorial model drives `solve` to an optimum
between the first midpoint `5/4` and the true supremum `25/13`, with no
warnings (every tutorial reaction has its enzyme). -/
theorem tutSolve_opt (oracle : List Row → OracleVerdict)
    (hc : OracleCorrectFor oracle tutRM tutModel.medium) :
    ∃ v : ℚ, solve tutModel oracle =
        .ok { outcome := .optimum v, warnings := [] } ∧
      5 / 4 ≤ v ∧ v ≤ 25 / 13 := by
  have hres : resolveModel tutModel = .ok tutRM := rfl
  have hwarn : missingEnzymeReactions tutModel = [] := rfl
  have hfeas : ∀ mu : ℚ, 0 ≤ mu → mu ≤ 25 / 13 →
      (oracle (compileR tutRM mu tutModel.medium)).toFeas = .feasible :=
    fun mu ha hb => (hc mu).1.mpr (tutFeasible mu ha hb)
  have hne : ∀ mu : ℚ,
      (oracle (compileR tutRM mu tutModel.medium)).toFeas ≠ .numericalError :=
    fun mu => (hc mu).2
  have hinf : ∀ mu : ℚ, ¬ mu ≤ 25 / 13 →
      (oracle (compileR tutRM mu tutModel.medium)).toFeas = .infeasible := by
    intro mu hmu
    rcases hv : (oracle (compileR tutRM mu tutModel.medium)).toFeas with _ | _ | _
    · exact absurd ((tutInfeasible mu ((hc mu).1.mp hv)).2) hmu
    · rfl
    · exact absurd hv (hne mu)
  have h0 : (oracle (compileR tutRM 0 tutModel.medium)).toFeas = .feasible :=
    hfeas 0 le_rfl (by norm_num)
  have hcapI : (oracle (compileR tutRM muCap tutModel.medium)).toFeas = .infeasible :=
    hinf muCap (by norm_num [muCap])
  have hstep : (search (fun mu => oracle (compileR tutRM mu tutModel.medium))
      muCap defaultIters).1 =
      (bisect (fun mu => oracle (compileR tutRM mu tutModel.medium))
        defaultIters 0 muCap).1 :=
    search_bisects _ _ _ h0 hcapI
  have hmid : ((0 : ℚ) + muCap) / 2 = 5 / 4 := by norm_num [muCap]
  have hmidf : (oracle (compileR tutRM (((0 : ℚ) + muCap) / 2) tutModel.medium)).toFeas
      = .feasible := by
    rw [hmid]
    exact hfeas (5 / 4) (by norm_num) (by norm_num)
  have hunroll : (bisect (fun mu => oracle (compileR tutRM mu tutModel.medium))
      defaultIters 0 muCap).1 =
      (bisect (fun mu => oracle (compileR tutRM mu tutModel.medium))
        49 (((0 : ℚ) + muCap) / 2) muCap).1 := by
    rw [show defaultIters = 49 + 1 from rfl]
    rw [bisect_succ_feasible _ _ _ _ hmidf]
  rcases bisect_ok (fun mu => oracle (compileR tutRM mu tutModel.medium)) 49
      (((0 : ℚ) + muCap) / 2) muCap (by rw [hmid]; norm_num [muCap])
      (fun mu _ _ => hne mu) with ⟨r, hr, hra, _, hrc⟩
  have hru : r ≤ 25 / 13 := by
    rcases hrc with h | h
    · rw [h, hmid]; norm_num
    · exact (tutInfeasible r ((hc r).1.mp h)).2
  refine ⟨r, ?_, by rw [hmid] at hra; exact hra, hru⟩
  have hout : (search (fun mu => oracle (compileR tutRM mu tutModel.medium))
      muCap defaultIters).1 = .optimum r := by
    rw [hstep, hunroll, hr]
  unfold solve
  rw [hres]
  show Except.ok
      { outcome := (search (fun mu => oracle (compileR tutRM mu tutModel.medium))
          muCap defaultIters).1,
        warnings := missingEnzymeReactions tutModel } =
    (Except.ok { outcome := .optimum r, warnings := [] } :
      Except CompileError RbaResult)
  rw [hout, hwarn]

/-! ## Claims -/

/-- C1: For the minimal model constructed in the tutorial — three
non-boundary species plus one boundary extracellular carbon source, three
irreversible reactions each catalyzed by an enzyme built from the constant
efficiency 10 (the transport efficiency additionally scaled by the
medium-dependent Michaelis-Menten factor), a cytosol density upper bound of
10 residue-units, and a biomass concentration target of 1 — `solve` with any
correct feasibility oracle terminates and returns an optimal growth rate
that is finite and strictly positive: `0 < mu_opt < 5/2`. -/
theorem C1_minimal_model_positive_growth (oracle : List Row → OracleVerdict)
    (hc : OracleCorrectFor oracle tutRM tutModel.medium) :
    ∃ v : ℚ, muOpt? (solve tutModel oracle) = some v ∧ 0 < v ∧ v < 5 / 2 := by
  rcases tutSolve_opt oracle hc with ⟨v, hs, h1, h2⟩
  refine ⟨v, ?_, by linarith, by linarith⟩
  rw [hs]
  rfl

/-- C1 witness: the exact oracle drives the tutorial model to a positive
optimal growth rate below the cap. -/
theorem C1_minimal_model_positive_growth_witness :
    ∃ v : ℚ, muOpt? (solve tutModel exactOracle) = some v ∧ 0 < v ∧ v < 5 / 2 :=
  C1_minimal_model_positive_growth exactOracle
    (exactOracle_correct tutRM tutModel.medium)

/-- C5: evaluating a registered Michaelis-Menten function returns
`kmax × x / (Km + x)` where `x` is the value of the function's variable (the
growth rate, or the referenced medium concentration), and returns 0 whenever
`x ≤ 0`. -/
theorem C5_michaelis_menten_evaluate (ps : Parameters) (f : PFunction)
    (kmax km mu : ℚ) (med : Medium) (id : String)
    (hfind : ps.functions.find? (fun g => g.id == id) = some f)
    (hdef : f.fdef = .michaelisMenten kmax km) :
    evaluate ps id mu med =
      .ok (if resolveVar med mu f.varRef ≤ 0 then 0
           else kmax * resolveVar med mu f.varRef / (km + resolveVar med mu f.varRef)) := by
  unfold evaluate defaultFuel resolveRef
  rw [hfind]
  simp [Except.map, evalP, evalFunctionDef, hdef]

/-- C5 witness: the tutorial's `transport_factor` evaluates at the tutorial
medium (concentration 10) to `1 × 10 / (1/2 + 10) = 20/21`. -/
theorem C5_michaelis_menten_evaluate_witness :
    tutParameters.functions.find? (fun g => g.id == "transport_factor") =
      some { id := "transport_factor", fdef := .michaelisMenten 1 (1 / 2),
             varRef := some "M_carbon_source_e" } ∧
    evaluate tutParameters "transport_factor" 1 tutModel.medium = .ok (20 / 21) := by
  refine ⟨rfl, ?_⟩
  rw [C5_michaelis_menten_evaluate tutParameters
    { id := "transport_factor", fdef := .michaelisMenten 1 (1 / 2),
      varRef := some "M_carbon_source_e" } 1 (1 / 2) 1 tutModel.medium
    "transport_factor" rfl rfl]
  norm_num [resolveVar, tutModel, tutResolve]

/-- C7: compilation and solving are deterministic — the compiled constraint
system is a pure function of (resolved model, growth rate, medium), and two
`solve` calls on the same unchanged model with the same oracle return the
same result.  The embedding keeps the model immutable and threads no hidden
state, so both equalities hold definitionally. -/
theorem C7_deterministic_compilation (m : RbaModel) (rm : RModel) (mu : ℚ)
    (med : Medium) (oracle : List Row → OracleVerdict) :
    compileR rm mu med = compileR rm mu med ∧ solve m oracle = solve m oracle :=
  ⟨rfl, rfl⟩

/-- C9: when a function's variable names a boundary species id carrying a
compartment suffix and the medium maps only the suffix-stripped prefix, the
evaluator resolves the variable to that medium concentration by stripping
the suffix, rather than treating the key as absent. -/
theorem C9_compartment_suffix_resolution (med : Medium) (id : String) (c : ℚ)
    (d : FunctionDef) (mu : ℚ)
    (h1 : mediumLookup med id = none)
    (h2 : mediumLookup med (stripCompartment id) = some c) :
    evalP mu med (.base d (some id)) = evalFunctionDef d c := by
  simp [evalP, resolveVar, resolveConcentration, h1, h2]

/-- C9 witness: in the tutorial, `M_carbon_source_e` is absent from the
medium, its stripped prefix `M_carbon_source` maps to 10, and the transport
factor therefore evaluates to `20/21`, not 0. -/
theorem C9_compartment_suffix_resolution_witness :
    mediumLookup [("M_carbon_source", (10 : ℚ))] "M_carbon_source_e" = none ∧
    mediumLookup [("M_carbon_source", (10 : ℚ))] (stripCompartment "M_carbon_source_e") =
      some 10 ∧
    evalP 1 [("M_carbon_source", (10 : ℚ))]
      (.base (.michaelisMenten 1 (1 / 2)) (some "M_carbon_source_e")) = 20 / 21 := by
  refine ⟨rfl, rfl, ?_⟩
  rw [C9_compartment_suffix_resolution [("M_carbon_source", (10 : ℚ))]
    "M_carbon_source_e" 10 (.michaelisMenten 1 (1 / 2)) 1 rfl rfl]
  norm_num [evalFunctionDef]

/-- C4: the growth-rate search aborts with the distinct `SOLVER_ERROR`
outcome exactly when some query it made returned `NUMERICAL_ERROR`; in
particular an error is never treated as `INFEASIBLE`, so no bisection step
ever narrows the bracket based on an errored query (any run whose outcome is
not `SOLVER_ERROR` contains no errored query in its trace). -/
theorem C4_numerical_error_aborts (o : ℚ → OracleVerdict) (muMax : ℚ)
    (iters : Nat) :
    (search o muMax iters).1 = .solverError ↔
      ∃ p ∈ (search o muMax iters).2, (p.2).toFeas = .numericalError := by
  rcases h0 : (o 0).toFeas with _ | _ | _
  · rcases hm : (o muMax).toFeas with _ | _ | _
    · simp [search, h0, hm]
    · have hb := bisect_error_iff o iters 0 muMax
      have hs1 : (search o muMax iters).1 = (bisect o iters 0 muMax).1 := by
        simp [search, h0, hm]
      have hs2 : (search o muMax iters).2 =
          (0, o 0) :: (muMax, o muMax) :: (bisect o iters 0 muMax).2 := by
        simp [search, h0, hm]
      rw [hs1, hs2]
      constructor
      · intro h
        rcases hb.mp h with ⟨p, hp1, hp2⟩
        exact ⟨p, by simp [hp1], hp2⟩
      · rintro ⟨p, hp1, hp2⟩
        rcases List.mem_cons.mp hp1 with rfl | hp1
        · exact absurd hp2 (by simp [h0])
        · rcases List.mem_cons.mp hp1 with rfl | hp1
          · exact absurd hp2 (by simp [hm])
          · exact hb.mpr ⟨p, hp1, hp2⟩
    · simp [search, h0, hm]
  · simp [search, h0]
  · simp [search, h0]

/-- C8: for every model that resolves, `solve` returns a result whose
warnings name exactly the reactions with no catalyzing enzyme and whose
outcome is the growth-rate search's outcome — the warning is non-fatal and
never aborts solving. -/
theorem C8_missing_enzyme_warning (m : RbaModel) (rm : RModel)
    (oracle : List Row → OracleVerdict) (hres : resolveModel m = .ok rm) :
    solve m oracle = .ok
      { outcome := (search (fun mu => oracle (compileR rm mu m.medium))
          muCap defaultIters).1,
        warnings := missingEnzymeReactions m } ∧
    (∀ rid : String, rid ∈ missingEnzymeReactions m ↔
      ∃ r ∈ m.reactions, r.id = rid ∧ ∀ e ∈ m.enzymes, e.reaction ≠ rid) := by
  constructor
  · unfold solve
    rw [hres]
    rfl
  · intro rid
    simp only [missingEnzymeReactions, List.mem_map, List.mem_filter,
      Bool.not_eq_true', List.any_eq_false, beq_iff_eq, ne_eq]
    constructor
    · rintro ⟨r, ⟨hr, hne⟩, rfl⟩
      exact ⟨r, hr, rfl, hne⟩
    · rintro ⟨r, hr, rfl, hall⟩
      exact ⟨r, ⟨hr, hall⟩, rfl⟩

/-- The model state of the tutorial notebook at its first solve: species,
reactions and medium only — every reaction still lacking an enzyme. -/
def earlyModel : RbaModel :=
  { tutModel with components := [], macromolecules := [], enzymes := [],
                  parameters := { functions := [], aggregates := [] },
                  densities := [], targets := [] }

/-- The early tutorial model, resolved. -/
def earlyRM : RModel :=
  { species := tutModel.species, reactions := tutModel.reactions,
    components := [], macromolecules := [], enzymes := [],
    densities := [], targets := [] }

/-- C8 witness: solving the enzyme-less early tutorial model returns a
result carrying the three "did not find enzymes" reaction warnings. -/
theorem C8_missing_enzyme_warning_witness :
    solve earlyModel exactOracle = .ok
      { outcome := (search (fun mu => exactOracle (compileR earlyRM mu earlyModel.medium))
          muCap defaultIters).1,
        warnings := ["R_transport", "R_protein_component_precursor", "R_biomass"] } :=
  (C8_missing_enzyme_warning earlyModel earlyRM exactOracle rfl).1

/-- Overwrite the definition of the parameter function named `fid` with the
constant `c` — the notebook's
`...get_by_id(fid).parameters.get_by_id('CONSTANT').value = c` mutation, as
a functional update. -/
def setConstantFn (fid : String) (c : ℚ) (f : PFunction) : PFunction :=
  if f.id = fid then { f with fdef := .constant c } else f

/-- Apply `setConstantFn` to every function of the registry. -/
def setConstant (m : RbaModel) (fid : String) (c : ℚ) : RbaModel :=
  { m with parameters :=
      { functions := m.parameters.functions.map (setConstantFn fid c),
        aggregates := m.parameters.aggregates } }

/-- Mapping a function that fixes every element of a list is the identity. -/
theorem map_id_on {α : Type} (g : α → α) :
    ∀ l : List α, (∀ x ∈ l, g x = x) → l.map g = l := by
  intro l
  induction l with
  | nil => intro _; rfl
  | cons x xs ih =>
    intro h
    simp only [List.map_cons]
    rw [h x (by simp), ih (fun y hy => h y (by simp [hy]))]

/-- C10: `solve` leaves the model unchanged (the embedding passes the model
by value, so nothing it contains can be mutated by a solve); in particular,
overwriting a constant parameter, solving, and restoring the original
constant yields a model equal to the original, and a subsequent solve
returns the same result as before the mutation. -/
theorem C10_solve_preserves_model (m : RbaModel) (fid : String) (c c0 : ℚ)
    (oracle : List Row → OracleVerdict)
    (h : ∀ f ∈ m.parameters.functions, f.id = fid → f.fdef = .constant c0) :
    setConstant (setConstant m fid c) fid c0 = m ∧
    solve (setConstant (setConstant m fid c) fid c0) oracle = solve m oracle := by
  have hfun : (m.parameters.functions.map (setConstantFn fid c)).map
      (setConstantFn fid c0) = m.parameters.functions := by
    rw [List.map_map]
    apply map_id_on
    intro f hf
    by_cases hid : f.id = fid
    · have hc0 := h f hf hid
      simp only [Function.comp, setConstantFn, hid, if_pos rfl]
      cases f
      simp only [PFunction.mk.injEq] at hc0 ⊢
      simp_all
    · simp [Function.comp, setConstantFn, hid]
  have hm : setConstant (setConstant m fid c) fid c0 = m := by
    obtain ⟨comp, sp, re, co, ma, en, pa, de, ta, me⟩ := m
    obtain ⟨fns, ags⟩ := pa
    simp only [setConstant] at hfun ⊢
    simp only [RbaModel.mk.injEq, Parameters.mk.injEq, true_and, and_true]
    simpa using hfun
  exact ⟨hm, by rw [hm]⟩

/-- C10 witness: the notebook's density sweep — set the cytosol density
constant to 1, then back to 10 — restores the tutorial model exactly, so a
later solve equals the original solve. -/
theorem C10_solve_preserves_model_witness :
    setConstant (setConstant tutModel "maximal_cytosol_density" 1)
      "maximal_cytosol_density" 10 = tutModel ∧
    solve (setConstant (setConstant tutModel "maximal_cytosol_density" 1)
      "maximal_cytosol_density" 10) exactOracle = solve tutModel exactOracle :=
  C10_solve_preserves_model tutModel "maximal_cytosol_density" 1 10 exactOracle
    (by decide)

/-- With no production targets (and density constraints that are plain
non-negative upper bounds) the all-zero assignment satisfies every compiled
row at every growth rate. -/
theorem zero_assignment_feasible (rm : RModel) (med : Medium)
    (htar : rm.targets = [])
    (hdens : ∀ d ∈ rm.densities, d.lower = none ∧ d.val = none ∧
      ∀ (mu : ℚ) (u : PExpr), d.upper = some u → 0 ≤ evalP mu med u) :
    ∀ mu : ℚ, Feasible (compileR rm mu med) := by
  intro mu
  refine ⟨fun _ => 0, ?_⟩
  intro row hrow
  simp only [compileR, List.mem_append] at hrow
  rcases hrow with ((((h | h) | h) | h) | h) | h
  · rcases List.mem_map.mp h with ⟨s, _, rfl⟩
    simp [Row.sat, balanceRow, Row.eval_zero, speciesConcTarget, htar]
  · rcases List.mem_flatMap.mp h with ⟨e, _, hrow⟩
    simp only [List.mem_cons, List.mem_singleton, List.not_mem_nil, or_false] at hrow
    rcases hrow with rfl | rfl
    · simp [Row.sat, fwdCapRow, Row.eval_zero]
    · simp [Row.sat, bwdCapRow, Row.eval_zero]
  · rcases List.mem_flatMap.mp h with ⟨e, _, hrow⟩
    rcases List.mem_map.mp hrow with ⟨p, _, rfl⟩
    simp [Row.sat, machineryRow, Row.eval_zero]
  · rcases List.mem_map.mp h with ⟨d, hd, rfl⟩
    obtain ⟨h1, h2, h3⟩ := hdens d hd
    rcases hu : d.upper with _ | u
    · simp [Row.sat, densityRow, Row.eval_zero, h1, h2, hu]
    · simp only [Row.sat, densityRow, Row.eval_zero, h1, h2, hu, Option.map_some']
      exact ⟨trivial, h3 mu u hu⟩
  · unfold fluxTargetRows at h
    rw [htar] at h
    simp at h
  · simp only [nonnegRows, List.mem_append] at h
    rcases h with (h | h) | h
    · rcases List.mem_map.mp h with ⟨r, _, rfl⟩
      simp [Row.sat, Row.eval_zero]
    · rcases List.mem_map.mp h with ⟨e, _, rfl⟩
      simp [Row.sat, Row.eval_zero]
    · rcases List.mem_map.mp h with ⟨mm, _, rfl⟩
      simp [Row.sat, Row.eval_zero]

/-- C2: for every model with no production targets whose density constraints
are plain non-negative upper bounds (so the all-zero assignment is feasible
at every growth rate), the search finds the cap feasible at its initial
check and `solve` returns the configured cap `muCap = 5/2` as the optimum,
rather than searching or failing. -/
theorem C2_no_targets_returns_cap (m : RbaModel) (rm : RModel)
    (oracle : List Row → OracleVerdict)
    (hres : resolveModel m = .ok rm)
    (htar : rm.targets = [])
    (hdens : ∀ d ∈ rm.densities, d.lower = none ∧ d.val = none ∧
      ∀ (mu : ℚ) (u : PExpr), d.upper = some u → 0 ≤ evalP mu m.medium u)
    (hc : OracleCorrectFor oracle rm m.medium) :
    solve m oracle = .ok
      { outcome := .optimum muCap, warnings := missingEnzymeReactions m } := by
  have hfeas := zero_assignment_feasible rm m.medium htar hdens
  have h0 : (oracle (compileR rm 0 m.medium)).toFeas = .feasible :=
    (hc 0).1.mpr (hfeas 0)
  have hcap : (oracle (compileR rm muCap m.medium)).toFeas = .feasible :=
    (hc muCap).1.mpr (hfeas muCap)
  have hout : (search (fun mu => oracle (compileR rm mu m.medium))
      muCap defaultIters).1 = .optimum muCap := by
    simp [search, h0, hcap]
  unfold solve
  rw [hres]
  show Except.ok
      { outcome := (search (fun mu => oracle (compileR rm mu m.medium))
          muCap defaultIters).1,
        warnings := missingEnzymeReactions m } =
    (Except.ok { outcome := .optimum muCap, warnings := missingEnzymeReactions m } :
      Except CompileError RbaResult)
  rw [hout]

/-- The tutorial model with its biomass production target removed. -/
def tutNoTargets : RbaModel := { tutModel with targets := [] }

/-- The target-less tutorial model, resolved. -/
def tutNoTargetsRM : RModel := { tutRM with targets := [] }

/-- C2 witness: removing the biomass target from the tutorial model makes
`solve` report the cap `5/2` — the notebook's "infinite growth" scenario. -/
theorem C2_no_targets_returns_cap_witness :
    solve tutNoTargets exactOracle = .ok
      { outcome := .optimum (5 / 2), warnings := [] } := by
  have h := C2_no_targets_returns_cap tutNoTargets tutNoTargetsRM exactOracle rfl rfl
    (by
      intro d hd
      simp only [tutNoTargetsRM, tutRM, List.mem_singleton] at hd
      subst hd
      refine ⟨rfl, rfl, ?_⟩
      intro mu u hu
      injection hu with hu
      rw [← hu, evalP_const]
      norm_num)
    (exactOracle_correct tutNoTargetsRM tutNoTargets.medium)
  exact h

/-! ## Monotone feasibility -/

/-- A parameter expression whose value does not depend on the growth rate
(constants, and functions of medium concentrations). -/
def MuIndependent (med : Medium) (p : PExpr) : Prop :=
  ∀ mu1 mu2 : ℚ, evalP mu1 med p = evalP mu2 med p

/-- The spec's "monotonic capacity-style model": efficiencies are
growth-rate independent and non-negative, every target is a concentration
target with a growth-rate independent level, and density bounds are
growth-rate independent. -/
def MonotonicCapacityModel (rm : RModel) (med : Medium) : Prop :=
  (∀ e ∈ rm.enzymes, MuIndependent med e.fwd ∧ MuIndependent med e.bwd ∧
    0 ≤ evalP 0 med e.fwd ∧ 0 ≤ evalP 0 med e.bwd) ∧
  (∀ t ∈ rm.targets, MuIndependent med t.value ∧
    ∃ s : String, t.kind = .concentration s) ∧
  (∀ d ∈ rm.densities,
    (∀ p : PExpr, d.lower = some p → MuIndependent med p) ∧
    (∀ p : PExpr, d.upper = some p → MuIndependent med p) ∧
    (∀ p : PExpr, d.val = some p → MuIndependent med p))

/-- Scale every flux variable of an assignment by `c`, keeping enzyme and
macromolecule concentrations. -/
def scaleFlux (c : ℚ) (a : Var → ℚ) : Var → ℚ :=
  fun v =>
    match v with
    | .flux r => c * a (.flux r)
    | v => a v

/-- `scaleFlux` on a flux variable. -/
theorem scaleFlux_flux (c : ℚ) (a : Var → ℚ) (r : String) :
    scaleFlux c a (Var.flux r) = c * a (Var.flux r) := rfl

/-- `scaleFlux` on an enzyme variable. -/
theorem scaleFlux_enzyme (c : ℚ) (a : Var → ℚ) (x : String) :
    scaleFlux c a (Var.enzyme x) = a (Var.enzyme x) := rfl

/-- `scaleFlux` on a macromolecule variable. -/
theorem scaleFlux_molecule (c : ℚ) (a : Var → ℚ) (x : String) :
    scaleFlux c a (Var.molecule x) = a (Var.molecule x) := rfl

/-- Evaluating a row whose variables are all fluxes under a flux-scaled
assignment scales the row value. -/
theorem sum_scaleFlux (c : ℚ) (a : Var → ℚ) :
    ∀ l : List (Var × ℚ), (∀ p ∈ l, ∃ r : String, p.1 = Var.flux r) →
    (l.map (fun p => p.2 * scaleFlux c a p.1)).sum =
      c * (l.map (fun p => p.2 * a p.1)).sum := by
  intro l
  induction l with
  | nil => intro _; simp
  | cons p l ih =>
    intro h
    rcases h p (by simp) with ⟨r, hr⟩
    simp only [List.map_cons, List.sum_cons, ih (fun q hq => h q (by simp [hq]))]
    rw [hr, scaleFlux_flux]
    ring

/-- Evaluating a row with no flux variables is unchanged by flux scaling. -/
theorem sum_scaleFlux_nonflux (c : ℚ) (a : Var → ℚ) :
    ∀ l : List (Var × ℚ), (∀ p ∈ l, ∀ r : String, p.1 ≠ Var.flux r) →
    (l.map (fun p => p.2 * scaleFlux c a p.1)).sum =
      (l.map (fun p => p.2 * a p.1)).sum := by
  intro l
  induction l with
  | nil => intro _; simp
  | cons p l ih =>
    intro h
    simp only [List.map_cons, List.sum_cons, ih (fun q hq => h q (by simp [hq]))]
    have : scaleFlux c a p.1 = a p.1 := by
      rcases hv : p.1 with r | x | x
      · exact absurd hv (h p (by simp) r)
      · rfl
      · rfl
    rw [this]

/-- Satisfaction transfers along equality of row values. -/
theorem sat_of_eval_eq (a b : Var → ℚ) (row : Row)
    (h : Row.eval a row = Row.eval b row) (hs : Row.sat b row) : Row.sat a row := by
  unfold Row.sat at hs ⊢
  rw [h]
  exact hs

/-- Growth-rate independent targets make the required concentration level
growth-rate independent. -/
theorem speciesConcTarget_muIndep (rm : RModel) (med : Medium)
    (ht : ∀ t ∈ rm.targets, MuIndependent med t.value) (sid : String)
    (mu1 mu2 : ℚ) :
    speciesConcTarget rm mu1 med sid = speciesConcTarget rm mu2 med sid := by
  unfold speciesConcTarget
  congr 1
  apply List.map_congr_left
  intro t htm
  rcases t.kind with s | r
  · by_cases hs : s = sid <;> simp [hs, ht t htm mu1 mu2]
  · simp

/-- Concentration-only targets produce no reaction-flux target rows. -/
theorem fluxTargetRows_nil (rm : RModel) (mu : ℚ) (med : Medium)
    (h : ∀ t ∈ rm.targets, ∃ s : String, t.kind = .concentration s) :
    fluxTargetRows rm mu med = [] := by
  unfold fluxTargetRows
  rw [List.filterMap_eq_nil_iff]
  intro t ht
  rcases h t ht with ⟨s, hk⟩
  simp [hk]

/-- Satisfying a row with equal bounds is attaining the bound. -/
theorem sat_eq_bounds (a : Var → ℚ) (row : Row) (x : ℚ)
    (hl : row.lower = some x) (hu : row.upper = some x) :
    Row.sat a row ↔ Row.eval a row = x := by
  unfold Row.sat
  rw [hl, hu]
  exact ⟨fun h => le_antisymm h.2 h.1, fun h => ⟨le_of_eq h.symm, le_of_eq h⟩⟩

/-- A capacity inequality survives scaling its flux by a factor in
`[0, 1]` when the efficiency and concentration are non-negative. -/
theorem scale_cap_le (k x f E : ℚ) (h : x ≤ f * E) (hk0 : 0 ≤ k) (hk1 : k ≤ 1)
    (hf : 0 ≤ f) (hE : 0 ≤ E) : k * x ≤ f * E := by
  nlinarith [mul_le_mul_of_nonneg_left h hk0,
    mul_nonneg (sub_nonneg.mpr hk1) (mul_nonneg hf hE)]

/-- C3: for every monotonic capacity-style model, if the compiled system is
feasible at growth rate `mu2` then it is feasible at every `mu` in
`[0, mu2]`: the feasible set of growth rates is downward closed, which is
the assumption under which the bisection returns the supremum of feasible
rates. -/
theorem C3_monotone_feasibility (rm : RModel) (med : Medium)
    (hmono : MonotonicCapacityModel rm med) (mu mu2 : ℚ)
    (h0 : 0 ≤ mu) (h12 : mu ≤ mu2)
    (hf : Feasible (compileR rm mu2 med)) : Feasible (compileR rm mu med) := by
  obtain ⟨henz, htar, hden⟩ := hmono
  rcases eq_or_lt_of_le (le_trans h0 h12) with h20 | hpos
  · have hmu : mu = 0 := le_antisymm (h20 ▸ h12) h0
    rw [hmu, h20]
    rw [← h20] at hf
    rw [h20] at hf
    exact hf
  · obtain ⟨a, ha⟩ := hf
    have hk0 : 0 ≤ mu / mu2 := div_nonneg h0 (le_of_lt hpos)
    have hk1 : mu / mu2 ≤ 1 := (div_le_one hpos).mpr h12
    have hkmu : mu / mu2 * mu2 = mu := div_mul_cancel₀ mu (ne_of_gt hpos)
    refine ⟨scaleFlux (mu / mu2) a, ?_⟩
    intro row hrow
    simp only [compileR, List.mem_append] at hrow
    rcases hrow with ((((h | h) | h) | h) | h) | h
    · -- mass balance rows
      rcases List.mem_map.mp h with ⟨s, hsf, rfl⟩
      obtain ⟨hs1, hs2⟩ := List.mem_filter.mp hsf
      have hbc : s.boundaryCondition = false := by simpa using hs2
      have ha2 := ha _ (balanceRow_mem rm mu2 med s hs1 hbc)
      have hvars : ∀ p ∈ (balanceRow rm mu2 med s).coeffs,
          ∃ r : String, p.1 = Var.flux r := by
        intro p hp
        rcases List.mem_map.mp hp with ⟨r, _, rfl⟩
        exact ⟨r.id, rfl⟩
      have hEq2 : Row.eval a (balanceRow rm mu2 med s) =
          mu2 * speciesConcTarget rm mu2 med s.id :=
        (sat_eq_bounds a _ _ rfl rfl).mp ha2
      refine (sat_eq_bounds (scaleFlux (mu / mu2) a) _ _ rfl rfl).mpr ?_
      have heval : Row.eval (scaleFlux (mu / mu2) a) (balanceRow rm mu med s) =
          (mu / mu2) * Row.eval a (balanceRow rm mu2 med s) := by
        unfold Row.eval
        exact sum_scaleFlux (mu / mu2) a _ hvars
      rw [heval, hEq2, ← mul_assoc, hkmu,
        speciesConcTarget_muIndep rm med (fun t ht => (htar t ht).1) s.id mu2 mu]
    · -- capacity rows
      rcases List.mem_flatMap.mp h with ⟨e, he, hrow⟩
      have hE := ha _ (enzymeNonnegRow_mem rm mu2 med e he)
      simp only [Row.sat, Row.eval, List.map_cons, List.map_nil, List.sum_cons,
        List.sum_nil] at hE
      have hE' : 0 ≤ a (Var.enzyme e.id) := by linarith [hE.1]
      have hfwd12 : evalP mu med e.fwd = evalP mu2 med e.fwd := (henz e he).1 mu mu2
      have hbwd12 : evalP mu med e.bwd = evalP mu2 med e.bwd :=
        (henz e he).2.1 mu mu2
      have hfwd0 : 0 ≤ evalP mu2 med e.fwd := by
        rw [← (henz e he).1 0 mu2]
        exact (henz e he).2.2.1
      have hbwd0 : 0 ≤ evalP mu2 med e.bwd := by
        rw [← (henz e he).2.1 0 mu2]
        exact (henz e he).2.2.2
      simp only [List.mem_cons, List.mem_singleton, List.not_mem_nil, or_false] at hrow
      rcases hrow with rfl | rfl
      · have ha2 := ha _ (fwdCapRow_mem rm mu2 med e he)
        simp only [Row.sat, Row.eval, fwdCapRow, List.map_cons, List.map_nil,
          List.sum_cons, List.sum_nil, scaleFlux_flux, scaleFlux_enzyme] at ha2 ⊢
        refine ⟨trivial, ?_⟩
        have h2 := ha2.2
        rw [hfwd12]
        have := scale_cap_le (mu / mu2) (a (Var.flux e.reaction))
          (evalP mu2 med e.fwd) (a (Var.enzyme e.id)) (by linarith) hk0 hk1 hfwd0 hE'
        linarith
      · have ha2 := ha _ (bwdCapRow_mem rm mu2 med e he)
        simp only [Row.sat, Row.eval, bwdCapRow, List.map_cons, List.map_nil,
          List.sum_cons, List.sum_nil, scaleFlux_flux, scaleFlux_enzyme] at ha2 ⊢
        refine ⟨trivial, ?_⟩
        have h2 := ha2.2
        rw [hbwd12]
        have := scale_cap_le (mu / mu2) (-(a (Var.flux e.reaction)))
          (evalP mu2 med e.bwd) (a (Var.enzyme e.id)) (by linarith) hk0 hk1 hbwd0 hE'
        linarith
    · -- machinery rows
      rcases List.mem_flatMap.mp h with ⟨e, he, hrow⟩
      rcases List.mem_map.mp hrow with ⟨p, hp, rfl⟩
      have ha2 := ha _ (machineryRow_mem rm mu2 med e p he hp)
      refine sat_of_eval_eq _ a _ ?_ ha2
      simp [Row.eval, machineryRow, scaleFlux_enzyme, scaleFlux_molecule]
    · -- density rows
      rcases List.mem_map.mp h with ⟨d, hd, rfl⟩
      obtain ⟨hl, hu, hv⟩ := hden d hd
      have hrow_eq : densityRow rm mu med d = densityRow rm mu2 med d := by
        unfold densityRow
        congr 1
        · rcases hdv : d.val with _ | v
          · rcases hdl : d.lower with _ | p
            · simp
            · simp only [Option.map_some']
              rw [hl p hdl mu mu2]
          · simp only []
            rw [hv v hdv mu mu2]
        · rcases hdv : d.val with _ | v
          · rcases hdu : d.upper with _ | p
            · simp
            · simp only [Option.map_some']
              rw [hu p hdu mu mu2]
          · simp only []
            rw [hv v hdv mu mu2]
      rw [hrow_eq]
      have ha2 := ha _ (densityRow_mem rm mu2 med d hd)
      refine sat_of_eval_eq _ a _ ?_ ha2
      unfold Row.eval
      apply sum_scaleFlux_nonflux
      intro p hp r
      rcases List.mem_map.mp hp with ⟨mm, _, rfl⟩
      simp
    · -- reaction-flux target rows: absent in this model class
      rw [fluxTargetRows_nil rm mu med (fun t ht => (htar t ht).2)] at h
      simp at h
    · -- sign rows
      simp only [nonnegRows, List.mem_append] at h
      rcases h with (h | h) | h
      · rcases List.mem_map.mp h with ⟨r, hrf, rfl⟩
        obtain ⟨hr, hirr'⟩ := List.mem_filter.mp hrf
        have hirr : r.reversible = false := by simpa using hirr'
        have ha2 := ha _ (fluxNonnegRow_mem rm mu2 med r hr hirr)
        simp only [Row.sat, Row.eval, List.map_cons, List.map_nil, List.sum_cons,
          List.sum_nil, scaleFlux_flux] at ha2 ⊢
        refine ⟨?_, trivial⟩
        have := ha2.1
        have := mul_nonneg hk0 (by linarith : (0 : ℚ) ≤ a (Var.flux r.id))
        linarith
      · rcases List.mem_map.mp h with ⟨e, hem, rfl⟩
        have ha2 := ha _ (enzymeNonnegRow_mem rm mu2 med e hem)
        exact sat_of_eval_eq _ a _ (by simp [Row.eval, scaleFlux_enzyme]) ha2
      · rcases List.mem_map.mp h with ⟨mm, hmm, rfl⟩
        have ha2 := ha _ (moleculeNonnegRow_mem rm mu2 med mm hmm)
        exact sat_of_eval_eq _ a _ (by simp [Row.eval, scaleFlux_molecule]) ha2

/-- The tutorial model is a monotonic capacity-style model: its efficiencies
are constants or medium-dependent (growth-rate independent) and
non-negative, its sole target is a constant concentration target, and its
density bound is a constant. -/
theorem tutMonotonic : MonotonicCapacityModel tutRM tutModel.medium := by
  refine ⟨?_, ?_, ?_⟩
  · intro e he
    simp only [tutRM, List.mem_cons, List.not_mem_nil, or_false] at he
    have hmed : tutModel.medium = [("M_carbon_source", (10 : ℚ))] := rfl
    rcases he with rfl | rfl | rfl
    · refine ⟨?_, fun _ _ => rfl, ?_, ?_⟩
      · intro mu1 mu2
        rw [tutE1, hmed, tutKcatT, tutKcatT]
      · rw [tutE1, hmed, tutKcatT]
        norm_num
      · rw [tutE1, evalP_const]
    · exact ⟨fun _ _ => rfl, fun _ _ => rfl, by rw [tutE2, evalP_const]; norm_num,
        by rw [tutE2, evalP_const]⟩
    · exact ⟨fun _ _ => rfl, fun _ _ => rfl, by rw [tutE3, evalP_const]; norm_num,
        by rw [tutE3, evalP_const]⟩
  · intro t ht
    simp only [tutRM, List.mem_singleton] at ht
    subst ht
    exact ⟨fun _ _ => rfl, ⟨"M_biomass_c", rfl⟩⟩
  · intro d hd
    simp only [tutRM, List.mem_singleton] at hd
    subst hd
    refine ⟨?_, ?_, ?_⟩
    · intro p hp
      cases hp
    · intro p hp
      injection hp with hp
      rw [← hp]
      exact fun _ _ => rfl
    · intro p hp
      cases hp

/-- C3 witness: the tutorial model is feasible at `25/13`, hence — by
downward closure — at the intermediate rate `1`. -/
theorem C3_monotone_feasibility_witness :
    Feasible (compileR tutRM 1 tutModel.medium) :=
  C3_monotone_feasibility tutRM tutModel.medium tutMonotonic 1 (25 / 13)
    (by norm_num) (by norm_num)
    (tutFeasible (25 / 13) (by norm_num) (by norm_num))

/-! ## Monotone sensitivity in a single enzyme's constant efficiency -/

/-- A globally correct oracle: its verdict reports exactly the feasibility
of whatever system it is handed, and it never fails numerically. -/
def OracleCorrect (oracle : List Row → OracleVerdict) : Prop :=
  ∀ sys : List Row,
    ((oracle sys).toFeas = .feasible ↔ Feasible sys) ∧
    (oracle sys).toFeas ≠ .numericalError

/-- The exact oracle is globally correct. -/
theorem exactOracle_correct_all : OracleCorrect exactOracle := by
  intro sys
  by_cases h : Feasible sys <;> simp [exactOracle, h, OracleVerdict.toFeas]

/-- `fid` is used only as the forward efficiency of the enzyme `eid`:
no backward efficiency, aggregate member, density bound or target value
refers to it. -/
def UsedOnlyAsFwdOf (m : RbaModel) (eid fid : String) : Prop :=
  (∀ e ∈ m.enzymes, e.backwardEfficiency ≠ fid ∧
    (e.forwardEfficiency = fid → e.id = eid)) ∧
  (∀ a ∈ m.parameters.aggregates, fid ∉ a.refs) ∧
  (∀ d ∈ m.densities, d.lowerBound ≠ some fid ∧ d.upperBound ≠ some fid ∧
    d.value ≠ some fid) ∧
  (∀ t ∈ m.targets, t.value ≠ fid)

/-- Overwriting one constant in a registry, as a registry operation. -/
def setConstantP (ps : Parameters) (fid : String) (c : ℚ) : Parameters :=
  { functions := ps.functions.map (setConstantFn fid c),
    aggregates := ps.aggregates }

/-- The functions of an overwritten registry. -/
theorem setConstantP_functions (ps : Parameters) (fid : String) (c : ℚ) :
    (setConstantP ps fid c).functions = ps.functions.map (setConstantFn fid c) := rfl

/-- The aggregates of an overwritten registry. -/
theorem setConstantP_aggregates (ps : Parameters) (fid : String) (c : ℚ) :
    (setConstantP ps fid c).aggregates = ps.aggregates := rfl

/-- `setConstantFn` keeps the function's identifier. -/
theorem setConstantFn_id (fid : String) (c : ℚ) (f : PFunction) :
    (setConstantFn fid c f).id = f.id := by
  unfold setConstantFn
  split <;> rfl

/-- Finding by id commutes with `setConstantFn`-mapping. -/
theorem find?_setConstantFn (fid : String) (c : ℚ) (x : String) :
    ∀ l : List PFunction,
    (l.map (setConstantFn fid c)).find? (fun f => f.id == x) =
      (l.find? (fun f => f.id == x)).map (setConstantFn fid c) := by
  intro l
  induction l with
  | nil => rfl
  | cons f l ih =>
    rcases hfx : (f.id == x) with _ | _
    · simp [List.find?_cons, setConstantFn_id, hfx, ih]
    · simp [List.find?_cons, setConstantFn_id, hfx]

/-- `mapM` over `Except` is pointwise extensional. -/
theorem mapM_congr_except {α β ε : Type} (f g : α → Except ε β) :
    ∀ l : List α, (∀ x ∈ l, f x = g x) → l.mapM f = l.mapM g := by
  intro l
  induction l with
  | nil => intro _; rfl
  | cons x l ih =>
    intro h
    simp only [List.mapM_cons, h x (by simp), ih (fun y hy => h y (by simp [hy]))]

/-- Bind on a successful `Except` computation. -/
theorem except_bind_ok {ε α β : Type} (a : α) (f : α → Except ε β) :
    (Except.ok a >>= f) = f a := rfl

/-- Bind on a failed `Except` computation. -/
theorem except_bind_error {ε α β : Type} (e : ε) (f : α → Except ε β) :
    ((Except.error e : Except ε α) >>= f) = .error e := rfl

/-- An `Except`-valued `mapM` whose per-element results are related produces
related lists. -/
theorem mapM_except_rel {α β ε : Type} (R : β → β → Prop)
    (f g : α → Except ε β) :
    ∀ l : List α, (∀ x ∈ l, ∀ b1 : β, f x = .ok b1 →
      ∃ b2 : β, g x = .ok b2 ∧ R b1 b2) →
    ∀ l1 : List β, l.mapM f = .ok l1 →
    ∃ l2 : List β, l.mapM g = .ok l2 ∧ List.Forall₂ R l1 l2 := by
  intro l
  induction l with
  | nil =>
    intro _ l1 h1
    refine ⟨[], rfl, ?_⟩
    have h1' : (Except.ok ([] : List β) : Except ε (List β)) = .ok l1 := h1
    injection h1' with h1'
    rw [← h1']
    exact List.Forall₂.nil
  | cons x l ih =>
    intro h l1 h1
    rw [List.mapM_cons] at h1
    cases hfx : f x with
    | error e =>
      rw [hfx, except_bind_error] at h1
      exact absurd h1 (by simp)
    | ok b1 =>
      rw [hfx, except_bind_ok] at h1
      cases hfl : l.mapM f with
      | error e =>
        rw [hfl, except_bind_error] at h1
        exact absurd h1 (by simp)
      | ok bs1 =>
        rw [hfl, except_bind_ok] at h1
        have h1' : (Except.ok (b1 :: bs1) : Except ε (List β)) = .ok l1 := h1
        injection h1' with h1'
        rcases h x (by simp) b1 hfx with ⟨b2, hgx, hR⟩
        rcases ih (fun y hy => h y (by simp [hy])) bs1 hfl with ⟨bs2, hgl, hRs⟩
        refine ⟨b2 :: bs2, ?_, ?_⟩
        · rw [List.mapM_cons, hgx, except_bind_ok, hgl, except_bind_ok]
          rfl
        · rw [← h1']
          exact List.Forall₂.cons hR hRs

/-- Right-hand members of related lists have related left partners. -/
theorem forall₂_mem_right {α β : Type} {R : α → β → Prop} :
    ∀ {l1 : List α} {l2 : List β}, List.Forall₂ R l1 l2 →
    ∀ b ∈ l2, ∃ a ∈ l1, R a b := by
  intro l1 l2 h
  induction h with
  | nil => intro b hb; cases hb
  | cons hR _ ih =>
    intro b hb
    rcases List.mem_cons.mp hb with rfl | hb
    · exact ⟨_, by simp, hR⟩
    · rcases ih b hb with ⟨a, ha, hab⟩
      exact ⟨a, by simp [ha], hab⟩

/-- Resolution of any identifier other than `fid` is unchanged by
overwriting `fid`'s constant, provided no aggregate refers to `fid`. -/
theorem resolveRef_setConstant_ne (ps : Parameters) (fid : String) (c : ℚ)
    (hagg : ∀ a ∈ ps.aggregates, fid ∉ a.refs) :
    ∀ (fuel : Nat) (x : String),
    (x ≠ fid ∨ ps.functions.find? (fun f => f.id == x) = none) →
    resolveRef (setConstantP ps fid c) fuel x = resolveRef ps fuel x := by
  intro fuel
  induction fuel with
  | zero => intro x _; rfl
  | succ n ih =>
    intro x hx
    simp only [resolveRef, setConstantP_functions, setConstantP_aggregates,
      find?_setConstantFn]
    cases hfx : ps.functions.find? (fun f => f.id == x) with
    | some f =>
      have hxf : x ≠ fid := by
        rcases hx with hx | hx
        · exact hx
        · rw [hfx] at hx; cases hx
      have hfid : f.id = x := by
        have := List.find?_some hfx
        simpa using this
      have hsf : setConstantFn fid c f = f := by
        unfold setConstantFn
        rw [if_neg (by rw [hfid]; exact hxf)]
      simp only [Option.map_some', hsf]
    | none =>
      simp only [Option.map_none']
      cases hax : ps.aggregates.find? (fun a => a.id == x) with
      | some a =>
        have ham : a ∈ ps.aggregates := List.mem_of_find?_eq_some hax
        have hmm : a.refs.mapM (resolveRef (setConstantP ps fid c) n) =
            a.refs.mapM (resolveRef ps n) :=
          mapM_congr_except _ _ a.refs
            (fun r hr => ih r (Or.inl (fun hrf => (hagg a ham) (hrf ▸ hr))))
        change (a.refs.mapM (resolveRef (setConstantP ps fid c) n) >>=
            fun es => Except.ok (PExpr.prod es)) =
          (a.refs.mapM (resolveRef ps n) >>= fun es => Except.ok (PExpr.prod es))
        rw [hmm]
      | none => rfl

/-- Resolving `fid` itself after the overwrite yields the constant, with the
function's variable reference kept. -/
theorem resolveRef_setConstant_self (ps : Parameters) (fid : String) (c : ℚ)
    (f0 : PFunction)
    (hfind : ps.functions.find? (fun f => f.id == fid) = some f0) :
    ∀ fuel : Nat,
    resolveRef (setConstantP ps fid c) (fuel + 1) fid =
      .ok (.base (.constant c) f0.varRef) := by
  intro fuel
  have hfid : f0.id = fid := by
    have := List.find?_some hfind
    simpa using this
  have hsf : setConstantFn fid c f0 = { f0 with fdef := .constant c } := by
    unfold setConstantFn
    rw [if_pos hfid]
  simp only [resolveRef, setConstantP_functions, find?_setConstantFn, hfind,
    Option.map_some', hsf]

/-- The parameter registry of `setConstant` is `setConstantP`. -/
theorem setConstant_parameters (m : RbaModel) (fid : String) (c : ℚ) :
    (setConstant m fid c).parameters = setConstantP m.parameters fid c := rfl

/-- `setConstant` leaves the reactions unchanged. -/
theorem setConstant_reactions (m : RbaModel) (fid : String) (c : ℚ) :
    (setConstant m fid c).reactions = m.reactions := rfl

/-- `setConstant` leaves the enzymes unchanged. -/
theorem setConstant_enzymes (m : RbaModel) (fid : String) (c : ℚ) :
    (setConstant m fid c).enzymes = m.enzymes := rfl

/-- `setConstant` leaves the densities unchanged. -/
theorem setConstant_densities (m : RbaModel) (fid : String) (c : ℚ) :
    (setConstant m fid c).densities = m.densities := rfl

/-- `setConstant` leaves the targets unchanged. -/
theorem setConstant_targets (m : RbaModel) (fid : String) (c : ℚ) :
    (setConstant m fid c).targets = m.targets := rfl

/-- `setConstant` leaves the medium unchanged. -/
theorem setConstant_medium (m : RbaModel) (fid : String) (c : ℚ) :
    (setConstant m fid c).medium = m.medium := rfl

/-- `setConstant` keeps the registry sizes, hence the default fuel. -/
theorem setConstant_defaultFuel (m : RbaModel) (fid : String) (c : ℚ) :
    defaultFuel (setConstant m fid c).parameters = defaultFuel m.parameters := by
  simp [defaultFuel, setConstant_parameters, setConstantP_functions,
    setConstantP_aggregates, List.length_map]

/-- Decomposition of a successful model resolution into its three passes. -/
theorem resolveModel_eq_ok (m : RbaModel) (rm : RModel)
    (h : resolveModel m = .ok rm) :
    ∃ (es : List REnzyme) (ds : List RDensity) (ts : List RTarget),
      m.enzymes.mapM (resolveEnzyme m (defaultFuel m.parameters)) = .ok es ∧
      m.densities.mapM (resolveDensity m.parameters (defaultFuel m.parameters)) = .ok ds ∧
      m.targets.mapM (resolveTarget m.parameters (defaultFuel m.parameters)) = .ok ts ∧
      rm = { species := m.species, reactions := m.reactions,
             components := m.components, macromolecules := m.macromolecules,
             enzymes := es, densities := ds, targets := ts } := by
  unfold resolveModel at h
  cases h1 : m.enzymes.mapM (resolveEnzyme m (defaultFuel m.parameters)) with
  | error e => rw [h1] at h; exact absurd h (by simp)
  | ok es =>
    rw [h1] at h
    cases h2 : m.densities.mapM (resolveDensity m.parameters (defaultFuel m.parameters)) with
    | error e => rw [h2] at h; exact absurd h (by simp)
    | ok ds =>
      rw [h2] at h
      cases h3 : m.targets.mapM (resolveTarget m.parameters (defaultFuel m.parameters)) with
      | error e => rw [h3] at h; exact absurd h (by simp)
      | ok ts =>
        rw [h3] at h
        injection h with h
        exact ⟨es, ds, ts, rfl, rfl, rfl, h.symm⟩

/-- The resolved enzyme built from an enzyme and two resolved efficiencies
(the shape `resolveEnzyme` produces). -/
def mkREnzyme (e : Enzyme) (fwd bwd : PExpr) : REnzyme :=
  { id := e.id, reaction := e.reaction, fwd := fwd, bwd := bwd,
    machinery := e.machineryComposition }

/-- Relation between the resolutions of one enzyme under the two constants:
identical except that the forward efficiency may only grow. -/
def EnzymeRel (med : Medium) (e1 e2 : REnzyme) : Prop :=
  e1.id = e2.id ∧ e1.reaction = e2.reaction ∧ e1.machinery = e2.machinery ∧
  e1.bwd = e2.bwd ∧ ∀ mu : ℚ, evalP mu med e1.fwd ≤ evalP mu med e2.fwd

/-- `EnzymeRel` is reflexive. -/
theorem enzymeRel_refl (med : Medium) (e : REnzyme) : EnzymeRel med e e :=
  ⟨rfl, rfl, rfl, rfl, fun _ => le_rfl⟩

/-- Resolving an enzyme under the larger constant succeeds whenever it does
under the smaller one, and the results are `EnzymeRel`-related. -/
theorem resolveEnzyme_setConstant_rel (m : RbaModel) (eid fid : String)
    (c1 c2 : ℚ) (hc : c1 ≤ c2) (honly : UsedOnlyAsFwdOf m eid fid) (fuel : Nat)
    (e : Enzyme) (he : e ∈ m.enzymes) (b1 : REnzyme)
    (hb1 : resolveEnzyme (setConstant m fid c1) (fuel + 1) e = .ok b1) :
    ∃ b2 : REnzyme, resolveEnzyme (setConstant m fid c2) (fuel + 1) e = .ok b2 ∧
      EnzymeRel m.medium b1 b2 := by
  obtain ⟨hENZ, hAGG, _, _⟩ := honly
  unfold resolveEnzyme at hb1 ⊢
  simp only [setConstant_reactions, setConstant_parameters] at hb1 ⊢
  by_cases hrx : m.reactions.any (fun r => r.id == e.reaction)
  · rw [if_pos hrx] at hb1 ⊢
    have hbwd1 := resolveRef_setConstant_ne m.parameters fid c1 hAGG (fuel + 1)
      e.backwardEfficiency (Or.inl (hENZ e he).1)
    have hbwd2 := resolveRef_setConstant_ne m.parameters fid c2 hAGG (fuel + 1)
      e.backwardEfficiency (Or.inl (hENZ e he).1)
    rw [hbwd1] at hb1
    rw [hbwd2]
    by_cases hfe : e.forwardEfficiency = fid
    · rw [hfe] at hb1 ⊢
      cases hf0 : m.parameters.functions.find? (fun f => f.id == fid) with
      | some f0 =>
        rw [resolveRef_setConstant_self m.parameters fid c1 f0 hf0 fuel] at hb1
        rw [resolveRef_setConstant_self m.parameters fid c2 f0 hf0 fuel]
        cases hbb : resolveRef m.parameters (fuel + 1) e.backwardEfficiency with
        | error err =>
          rw [hbb] at hb1
          exact absurd hb1 (by simp)
        | ok pb =>
          rw [hbb] at hb1
          have hb1' : Except.ok (mkREnzyme e (.base (.constant c1) f0.varRef) pb) =
              (Except.ok b1 : Except CompileError REnzyme) := hb1
          injection hb1' with hb1'
          refine ⟨mkREnzyme e (.base (.constant c2) f0.varRef) pb, rfl, ?_⟩
          rw [← hb1']
          exact ⟨rfl, rfl, rfl, rfl,
            fun mu => by simp only [mkREnzyme, evalP_const]; exact hc⟩
      | none =>
        rw [resolveRef_setConstant_ne m.parameters fid c1 hAGG (fuel + 1) fid
          (Or.inr hf0)] at hb1
        rw [resolveRef_setConstant_ne m.parameters fid c2 hAGG (fuel + 1) fid
          (Or.inr hf0)]
        exact ⟨b1, hb1, enzymeRel_refl m.medium b1⟩
    · rw [resolveRef_setConstant_ne m.parameters fid c1 hAGG (fuel + 1)
        e.forwardEfficiency (Or.inl hfe)] at hb1
      rw [resolveRef_setConstant_ne m.parameters fid c2 hAGG (fuel + 1)
        e.forwardEfficiency (Or.inl hfe)]
      exact ⟨b1, hb1, enzymeRel_refl m.medium b1⟩
  · rw [if_neg hrx] at hb1
    exact absurd hb1 (by simp)

/-- Resolving an optional reference that is not `fid` ignores the constant
overwrite. -/
theorem resolveOpt_setConstant_eq (ps : Parameters) (fid : String) (c : ℚ)
    (hagg : ∀ a ∈ ps.aggregates, fid ∉ a.refs) (fuel : Nat) (o : Option String)
    (ho : o ≠ some fid) :
    resolveOpt (setConstantP ps fid c) fuel o = resolveOpt ps fuel o := by
  cases o with
  | none => rfl
  | some x =>
    have hx : x ≠ fid := fun h => ho (by rw [h])
    unfold resolveOpt
    change Except.map some (Except.mapError CompileError.undefinedParameter
        (resolveRef (setConstantP ps fid c) fuel x)) =
      Except.map some (Except.mapError CompileError.undefinedParameter
        (resolveRef ps fuel x))
    rw [resolveRef_setConstant_ne ps fid c hagg fuel x (Or.inl hx)]

/-- Density resolution ignores the constant overwrite when no density bound
refers to `fid`. -/
theorem resolveDensity_setConstant_eq (ps : Parameters) (fid : String) (c : ℚ)
    (hagg : ∀ a ∈ ps.aggregates, fid ∉ a.refs) (fuel : Nat) (d : TargetDensity)
    (hd : d.lowerBound ≠ some fid ∧ d.upperBound ≠ some fid ∧ d.value ≠ some fid) :
    resolveDensity (setConstantP ps fid c) fuel d = resolveDensity ps fuel d := by
  unfold resolveDensity
  rw [resolveOpt_setConstant_eq ps fid c hagg fuel d.lowerBound hd.1,
    resolveOpt_setConstant_eq ps fid c hagg fuel d.upperBound hd.2.1,
    resolveOpt_setConstant_eq ps fid c hagg fuel d.value hd.2.2]

/-- Target resolution ignores the constant overwrite when no target value
refers to `fid`. -/
theorem resolveTarget_setConstant_eq (ps : Parameters) (fid : String) (c : ℚ)
    (hagg : ∀ a ∈ ps.aggregates, fid ∉ a.refs) (fuel : Nat) (t : Target)
    (ht : t.value ≠ fid) :
    resolveTarget (setConstantP ps fid c) fuel t = resolveTarget ps fuel t := by
  unfold resolveTarget
  rw [resolveRef_setConstant_ne ps fid c hagg fuel t.value (Or.inl ht)]

/-- Enlarging forward efficiencies (with everything else unchanged) keeps
every feasible point feasible: the same assignment satisfies the new
system. -/
theorem feasible_enzyme_mono (rm : RModel) (es2 : List REnzyme) (med : Medium)
    (mu : ℚ) (hen : List.Forall₂ (EnzymeRel med) rm.enzymes es2)
    (hf : Feasible (compileR rm mu med)) :
    Feasible (compileR { rm with enzymes := es2 } mu med) := by
  obtain ⟨a, ha⟩ := hf
  refine ⟨a, ?_⟩
  intro row hrow
  simp only [compileR, List.mem_append] at hrow
  rcases hrow with ((((h | h) | h) | h) | h) | h
  · rcases List.mem_map.mp h with ⟨s, hsf, rfl⟩
    obtain ⟨hs1, hs2⟩ := List.mem_filter.mp hsf
    have hbc : s.boundaryCondition = false := by simpa using hs2
    exact ha _ (balanceRow_mem rm mu med s hs1 hbc)
  · rcases List.mem_flatMap.mp h with ⟨e2, he2, hrow⟩
    rcases forall₂_mem_right hen e2 he2 with ⟨e1, he1, hrel⟩
    obtain ⟨hid, hre, hma, hbw, hfwd⟩ := hrel
    have hE := ha _ (enzymeNonnegRow_mem rm mu med e1 he1)
    simp only [Row.sat, Row.eval, List.map_cons, List.map_nil, List.sum_cons,
      List.sum_nil] at hE
    have hE' : 0 ≤ a (Var.enzyme e1.id) := by linarith [hE.1]
    simp only [List.mem_cons, List.mem_singleton, List.not_mem_nil, or_false] at hrow
    rcases hrow with rfl | rfl
    · have ha1 := ha _ (fwdCapRow_mem rm mu med e1 he1)
      simp only [Row.sat, Row.eval, fwdCapRow, List.map_cons, List.map_nil,
        List.sum_cons, List.sum_nil] at ha1 ⊢
      refine ⟨trivial, ?_⟩
      rw [← hid, ← hre]
      have hmul := mul_le_mul_of_nonneg_right (hfwd mu) hE'
      have h1 := ha1.2
      linarith
    · have hrow_eq : bwdCapRow mu med e1 = bwdCapRow mu med e2 := by
        unfold bwdCapRow
        rw [hid, hre, hbw]
      rw [← hrow_eq]
      exact ha _ (bwdCapRow_mem rm mu med e1 he1)
  · rcases List.mem_flatMap.mp h with ⟨e2, he2, hrow⟩
    rcases List.mem_map.mp hrow with ⟨p, hp, rfl⟩
    rcases forall₂_mem_right hen e2 he2 with ⟨e1, he1, hrel⟩
    obtain ⟨hid, _, hma, _, _⟩ := hrel
    have hrow_eq : machineryRow e1 p = machineryRow e2 p := by
      unfold machineryRow
      rw [hid]
    rw [← hrow_eq]
    exact ha _ (machineryRow_mem rm mu med e1 p he1 (by rw [hma]; exact hp))
  · rcases List.mem_map.mp h with ⟨d, hd, rfl⟩
    exact ha _ (densityRow_mem rm mu med d hd)
  · exact ha _ (List.mem_append_left _ (List.mem_append_right _ h))
  · simp only [nonnegRows, List.mem_append] at h
    rcases h with (h | h) | h
    · rcases List.mem_map.mp h with ⟨r, hrf, rfl⟩
      obtain ⟨hr, hirr'⟩ := List.mem_filter.mp hrf
      exact ha _ (fluxNonnegRow_mem rm mu med r hr (by simpa using hirr'))
    · rcases List.mem_map.mp h with ⟨e2, he2, rfl⟩
      rcases forall₂_mem_right hen e2 he2 with ⟨e1, he1, hrel⟩
      rw [← hrel.1]
      exact ha _ (enzymeNonnegRow_mem rm mu med e1 he1)
    · rcases List.mem_map.mp h with ⟨mm, hmm, rfl⟩
      exact ha _ (moleculeNonnegRow_mem rm mu med mm hmm)

/-- Pointwise enlarging the feasible answers of the oracle never lowers the
optimum the full search reports. -/
theorem search_mono (o1 o2 : ℚ → OracleVerdict) (muMax : ℚ) (iters : Nat)
    (hmax0 : 0 ≤ muMax)
    (h12 : ∀ mu : ℚ, (o1 mu).toFeas = .feasible → (o2 mu).toFeas = .feasible)
    (hne1 : ∀ mu : ℚ, (o1 mu).toFeas ≠ .numericalError)
    (hne2 : ∀ mu : ℚ, (o2 mu).toFeas ≠ .numericalError)
    (v1 v2 : ℚ)
    (h1 : (search o1 muMax iters).1 = .optimum v1)
    (h2 : (search o2 muMax iters).1 = .optimum v2) : v1 ≤ v2 := by
  rcases hf10 : (o1 0).toFeas with _ | _ | _
  · have hf20 := h12 0 hf10
    rcases hf1m : (o1 muMax).toFeas with _ | _ | _
    · have hf2m := h12 muMax hf1m
      simp only [search, hf10, hf1m, hf20, hf2m] at h1 h2
      injection h1 with h1
      injection h2 with h2
      rw [← h1, ← h2]
    · simp only [search, hf10, hf1m] at h1
      rcases hf2m : (o2 muMax).toFeas with _ | _ | _
      · simp only [search, hf20, hf2m] at h2
        rcases bisect_ok o1 iters 0 muMax hmax0 (fun mu _ _ => hne1 mu) with
          ⟨r, hr, _, hrhi, _⟩
        rw [h1] at hr
        injection hr with hr
        injection h2 with h2
        rw [← h2, hr]
        exact hrhi
      · simp only [search, hf20, hf2m] at h2
        exact bisect_mono o1 o2 iters 0 muMax hmax0 (fun mu _ _ => h12 mu)
          (fun mu _ _ => hne1 mu) (fun mu _ _ => hne2 mu) v1 v2 h1 h2
      · exact absurd hf2m (hne2 muMax)
    · exact absurd hf1m (hne1 muMax)
  · simp [search, hf10] at h1
  · exact absurd hf10 (hne1 0)

/-- `setConstant` leaves the species unchanged. -/
theorem setConstant_species (m : RbaModel) (fid : String) (c : ℚ) :
    (setConstant m fid c).species = m.species := rfl

/-- `setConstant` leaves the components unchanged. -/
theorem setConstant_components (m : RbaModel) (fid : String) (c : ℚ) :
    (setConstant m fid c).components = m.components := rfl

/-- `setConstant` leaves the macromolecules unchanged. -/
theorem setConstant_macromolecules (m : RbaModel) (fid : String) (c : ℚ) :
    (setConstant m fid c).macromolecules = m.macromolecules := rfl

/-- Overwriting a constant keeps the registry sizes, hence the fuel. -/
theorem setConstantP_defaultFuel (ps : Parameters) (fid : String) (c : ℚ) :
    defaultFuel (setConstantP ps fid c) = defaultFuel ps := by
  simp [defaultFuel, setConstantP_functions, setConstantP_aggregates,
    List.length_map]

/-- A solve that reports an optimal growth rate determines a successful
resolution and a search ending on that optimum. -/
theorem muOpt?_some (m : RbaModel) (oracle : List Row → OracleVerdict) (v : ℚ)
    (h : muOpt? (solve m oracle) = some v) :
    ∃ rm : RModel, resolveModel m = .ok rm ∧
      (search (fun mu => oracle (compileR rm mu m.medium)) muCap defaultIters).1 =
        .optimum v := by
  unfold solve at h
  cases hres : resolveModel m with
  | error e =>
    rw [hres] at h
    simp [muOpt?, Except.map] at h
  | ok rm =>
    rw [hres] at h
    simp only [Except.map] at h
    refine ⟨rm, rfl, ?_⟩
    cases hout : (search (fun mu => oracle (compileR rm mu m.medium))
        muCap defaultIters).1 with
    | infeasibleAtZero => rw [hout] at h; simp [muOpt?] at h
    | solverError => rw [hout] at h; simp [muOpt?] at h
    | optimum r =>
      rw [hout] at h
      simp only [muOpt?, Option.some.injEq] at h
      rw [h]

/-- C6: increasing the CONSTANT coefficient of the parameter function that
serves as a single enzyme's forward efficiency (all other model content
unchanged) never decreases the optimal growth rate `solve` returns, for any
correct oracles. -/
theorem C6_efficiency_monotone (m : RbaModel) (eid fid : String) (c1 c2 : ℚ)
    (hc : c1 ≤ c2) (honly : UsedOnlyAsFwdOf m eid fid)
    (o1 o2 : List Row → OracleVerdict)
    (ho1 : OracleCorrect o1) (ho2 : OracleCorrect o2) (v1 v2 : ℚ)
    (h1 : muOpt? (solve (setConstant m fid c1) o1) = some v1)
    (h2 : muOpt? (solve (setConstant m fid c2) o2) = some v2) :
    v1 ≤ v2 := by
  obtain ⟨rm1, hres1, hs1⟩ := muOpt?_some _ o1 v1 h1
  obtain ⟨rm2, hres2, hs2⟩ := muOpt?_some _ o2 v2 h2
  obtain ⟨es1, ds1, ts1, hE1, hD1, hT1, hrm1⟩ := resolveModel_eq_ok _ _ hres1
  obtain ⟨es2, ds2, ts2, hE2, hD2, hT2, hrm2⟩ := resolveModel_eq_ok _ _ hres2
  obtain ⟨hENZ, hAGG, hDEN, hTAR⟩ := honly
  simp only [setConstant_enzymes, setConstant_densities, setConstant_targets,
    setConstant_parameters, setConstantP_defaultFuel, setConstant_species,
    setConstant_reactions, setConstant_components, setConstant_macromolecules]
    at hE1 hD1 hT1 hE2 hD2 hT2 hrm1 hrm2
  -- densities and targets resolve identically under both constants
  have hDd : ds1 = ds2 := by
    have e1 : m.densities.mapM (resolveDensity (setConstantP m.parameters fid c1)
        (defaultFuel m.parameters)) =
        m.densities.mapM (resolveDensity m.parameters (defaultFuel m.parameters)) :=
      mapM_congr_except _ _ _ (fun d hd =>
        resolveDensity_setConstant_eq m.parameters fid c1 hAGG _ d (hDEN d hd))
    have e2 : m.densities.mapM (resolveDensity (setConstantP m.parameters fid c2)
        (defaultFuel m.parameters)) =
        m.densities.mapM (resolveDensity m.parameters (defaultFuel m.parameters)) :=
      mapM_congr_except _ _ _ (fun d hd =>
        resolveDensity_setConstant_eq m.parameters fid c2 hAGG _ d (hDEN d hd))
    have := hD1.symm.trans (e1.trans (e2.symm.trans hD2))
    injection this
  have hTt : ts1 = ts2 := by
    have e1 : m.targets.mapM (resolveTarget (setConstantP m.parameters fid c1)
        (defaultFuel m.parameters)) =
        m.targets.mapM (resolveTarget m.parameters (defaultFuel m.parameters)) :=
      mapM_congr_except _ _ _ (fun t ht =>
        resolveTarget_setConstant_eq m.parameters fid c1 hAGG _ t (hTAR t ht))
    have e2 : m.targets.mapM (resolveTarget (setConstantP m.parameters fid c2)
        (defaultFuel m.parameters)) =
        m.targets.mapM (resolveTarget m.parameters (defaultFuel m.parameters)) :=
      mapM_congr_except _ _ _ (fun t ht =>
        resolveTarget_setConstant_eq m.parameters fid c2 hAGG _ t (hTAR t ht))
    have := hT1.symm.trans (e1.trans (e2.symm.trans hT2))
    injection this
  -- the enzymes are pairwise related
  have hfuel : defaultFuel m.parameters =
      (m.parameters.functions.length + m.parameters.aggregates.length) + 1 := rfl
  rw [hfuel] at hE1 hE2
  have hrel := mapM_except_rel (EnzymeRel m.medium)
    (resolveEnzyme (setConstant m fid c1)
      ((m.parameters.functions.length + m.parameters.aggregates.length) + 1))
    (resolveEnzyme (setConstant m fid c2)
      ((m.parameters.functions.length + m.parameters.aggregates.length) + 1))
    m.enzymes
    (fun e he b1 hb1 => resolveEnzyme_setConstant_rel m eid fid c1 c2 hc
      ⟨hENZ, hAGG, hDEN, hTAR⟩ _ e he b1 hb1)
    es1 hE1
  obtain ⟨es2', hE2', hforall⟩ := hrel
  have hes2 : es2' = es2 := by
    have := hE2'.symm.trans hE2
    injection this
  rw [hes2] at hforall
  -- rm2 is rm1 with enlarged enzymes
  have hrm12 : rm2 = { rm1 with enzymes := es2 } := by
    rw [hrm1, hrm2, hDd, hTt]
  -- pointwise feasibility implication
  have hpoint : ∀ mu : ℚ, Feasible (compileR rm1 mu m.medium) →
      Feasible (compileR rm2 mu m.medium) := by
    intro mu hf
    rw [hrm12]
    apply feasible_enzyme_mono rm1 es2 m.medium mu ?_ hf
    rw [hrm1]
    exact hforall
  -- conclude by search monotonicity
  exact search_mono
    (fun mu => o1 (compileR rm1 mu (setConstant m fid c1).medium))
    (fun mu => o2 (compileR rm2 mu (setConstant m fid c2).medium))
    muCap defaultIters (by norm_num [muCap])
    (fun mu hfe => ((ho2 _).1.mpr (hpoint mu ((ho1 _).1.mp hfe))))
    (fun mu => (ho1 _).2) (fun mu => (ho2 _).2) v1 v2 hs1 hs2

/-- C6 witness: the notebook's `kcat_biomass` mutation applied with equal
constants 10 leaves the tutorial model unchanged, and the two optimal growth
rates (both the tutorial optimum) satisfy the monotonicity. -/
theorem C6_efficiency_monotone_witness :
    ∃ v1 v2 : ℚ,
      muOpt? (solve (setConstant tutModel "kcat_biomass" 10) exactOracle) = some v1 ∧
      muOpt? (solve (setConstant tutModel "kcat_biomass" 10) exactOracle) = some v2 ∧
      v1 ≤ v2 := by
  rcases tutSolve_opt exactOracle (exactOracle_correct tutRM tutModel.medium) with
    ⟨v, hs, _, _⟩
  have hset : setConstant tutModel "kcat_biomass" 10 = tutModel := rfl
  have hv : muOpt? (solve (setConstant tutModel "kcat_biomass" 10) exactOracle) =
      some v := by
    rw [hset, hs]
    rfl
  exact ⟨v, v, hv, hv,
    C6_efficiency_monotone tutModel "R_biomass_enzyme" "kcat_biomass" 10 10 le_rfl
      (by unfold UsedOnlyAsFwdOf; decide) exactOracle exactOracle exactOracle_correct_all
      exactOracle_correct_all v v hv hv⟩

end RBA
